import Mathlib

/-!
Verification of the spatialdata transformation engine.

The development shallowly embeds `src/src/spatialdata/_core/operations/transform.py`
(raster / multiscale / point-table / shape transforms, the transformation
adjuster and the target-coordinate-system resolver) and the polygon string
serialization of `src/spatialdata/_core/elements.py`.

The affine-transformation value type (`spatialdata.transformations.transformations`)
is not part of the sources; it is modelled from the specification (sections 3
and 4.1): a tagged union Identity / Translation / Scale / Affine / Sequence,
homogeneous matrices over the requested axis list, `Sequence.to_affine_matrix`
right-multiplying member matrices in application order, and `inverse` failing
exactly on singular linear parts.  Machine floats are modelled by exact
rationals.
-/

namespace SpatialData

/-- Modelled from the spec: the AffineTransform tagged union (spec section 3).
`translation`/`scale` carry their per-axis vector together with their axis
names; `affine` carries the full homogeneous matrix (rows `|output|+1`,
cols `|input|+1`) as a row-major list of rows. -/
inductive BaseTransformation where
  | identity : BaseTransformation
  | translation (v : List ℚ) (axes : List String) : BaseTransformation
  | scale (factors : List ℚ) (axes : List String) : BaseTransformation
  | affine (m : List (List ℚ)) (inputAxes outputAxes : List String) : BaseTransformation
  | sequence (transformations : List BaseTransformation) : BaseTransformation

/-- Reserved default coordinate-system name (`DEFAULT_COORDINATE_SYSTEM` in
`spatialdata.models._utils`). -/
def DEFAULT_COORDINATE_SYSTEM : String := "global"

/-- Component of a per-axis vector for a named axis: the vector entry at the
axis's position in the transform's own axis list, `0` (resp. the supplied
default) when the axis is absent, matching the identity passthrough for axes
the transform does not mention. -/
def axisComp (v : List ℚ) (taxes : List String) (a : String) (dflt : ℚ) : ℚ :=
  v.getD (taxes.indexOf a) dflt

/-- Modelled from the spec: inverse of a square rational matrix given as a
list of rows, failing exactly when the determinant is zero
(`NonInvertibleTransformError`, spec section 4.1). -/
def matInvList (m : List (List ℚ)) : Option (List (List ℚ)) :=
  let k := m.length
  let A : Matrix (Fin k) (Fin k) ℚ := Matrix.of fun i j => (m.getD i []).getD j 0
  if A.det = 0 then none
  else
    let B := A.det⁻¹ • A.adjugate
    some ((List.finRange k).map fun i => (List.finRange k).map fun j => B i j)

mutual

/-- Modelled from the spec: `AffineTransform.inverse()` (spec section 4.1) —
defined variant-wise, failing on singular linear parts; the inverse of a
sequence is the reversed sequence of member inverses. -/
def inverse : BaseTransformation → Option BaseTransformation
  | .identity => some .identity
  | .translation v a => some (.translation (v.map Neg.neg) a)
  | .scale f a => if f.all (fun x => x ≠ 0) then some (.scale (f.map (fun x => 1 / x)) a) else none
  | .affine m ia oa => (matInvList m).map (fun mi => .affine mi oa ia)
  | .sequence ts => (inverseList ts).map (fun l => .sequence l.reverse)

/-- Elementwise inverse of a list of transforms, failing when any member does. -/
def inverseList : List BaseTransformation → Option (List BaseTransformation)
  | [] => some []
  | t :: ts =>
    match inverse t, inverseList ts with
    | some ti, some rest => some (ti :: rest)
    | _, _ => none

end

mutual

/-- Modelled from the spec: `to_affine_matrix(input_axes, output_axes)` for
`input_axes = output_axes = axes` (the only form the embedded source uses):
a homogeneous `(|axes|+1) x (|axes|+1)` matrix; requested axes the transform
does not mention pass through unchanged; `Sequence` right-multiplies member
matrices in application order (spec sections 3, 4.1, 4.3). -/
def toAffineMatrix (t : BaseTransformation) (axes : List String) :
    Matrix (Fin (axes.length + 1)) (Fin (axes.length + 1)) ℚ :=
  match t with
  | .identity => 1
  | .translation v taxes => Matrix.of fun i j =>
      if (i : Nat) = axes.length then (if (j : Nat) = axes.length then 1 else 0)
      else if (j : Nat) = (i : Nat) then 1
      else if (j : Nat) = axes.length then axisComp v taxes (axes.getD i "") 0
      else 0
  | .scale f saxes => Matrix.of fun i j =>
      if (i : Nat) = axes.length then (if (j : Nat) = axes.length then 1 else 0)
      else if (j : Nat) = (i : Nat) then axisComp f saxes (axes.getD i "") 1
      else 0
  | .affine m ia oa => Matrix.of fun i j =>
      if (i : Nat) = axes.length then (if (j : Nat) = axes.length then 1 else 0)
      else if axes.getD i "" ∈ oa then
        let row := m.getD (oa.indexOf (axes.getD i "")) []
        if (j : Nat) = axes.length then row.getD ia.length 0
        else if axes.getD j "" ∈ ia then row.getD (ia.indexOf (axes.getD j "")) 0
        else 0
      else if (j : Nat) = (i : Nat) then 1 else 0
  | .sequence ts => seqAffineMatrix ts axes

/-- The product of the member matrices of a `Sequence`, right-multiplied in
application order. -/
def seqAffineMatrix (ts : List BaseTransformation) (axes : List String) :
    Matrix (Fin (axes.length + 1)) (Fin (axes.length + 1)) ℚ :=
  match ts with
  | [] => 1
  | t :: rest => seqAffineMatrix rest axes * toAffineMatrix t axes

end

mutual

/-- Structural equality of transforms, modelling Python `==` on
BaseTransformation values (spec section 4.1: exact structural equality). -/
def btBEq : BaseTransformation → BaseTransformation → Bool
  | .identity, .identity => true
  | .translation v a, .translation v' a' => v == v' && a == a'
  | .scale f a, .scale f' a' => f == f' && a == a'
  | .affine m ia oa, .affine m' ia' oa' => m == m' && ia == ia' && oa == oa'
  | .sequence ts, .sequence ts' => btListBEq ts ts'
  | _, _ => false

/-- Elementwise structural equality of transform lists. -/
def btListBEq : List BaseTransformation → List BaseTransformation → Bool
  | [], [] => true
  | t :: ts, t' :: ts' => btBEq t t' && btListBEq ts ts'
  | _, _ => false

end

/-- Modelled from the spec: `BaseTransformation._get_n_spatial_dims(axes)` —
the number of spatial axes among the requested axis names (spec section 4.3:
`d` = number of spatial axes; spatial axis names are `x`, `y`, `z`). -/
def nSpatialDims (axes : List String) : Nat :=
  (axes.filter (fun a => a = "x" ∨ a = "y" ∨ a = "z")).length

/-- Python `int()` conversion of a float: truncation toward zero. -/
def pyInt (q : ℚ) : ℤ :=
  if 0 ≤ q then ⌊q⌋ else -⌊-q⌋

/-- Embedding of `itertools.product([0, 1], repeat=d)`: all `2^d` binary
rows, first coordinate varying slowest. -/
def productBits : Nat → List (List ℚ)
  | 0 => [[]]
  | d + 1 => ([0, 1] : List ℚ).flatMap (fun x => (productBits d).map (fun r => x :: r))

/-- Embedding of `np.max` over a (nonempty) list. -/
def listMaxQ (l : List ℚ) : ℚ := l.foldl max (l.headD 0)

/-- Embedding of `np.min` over a (nonempty) list. -/
def listMinQ (l : List ℚ) : ℚ := l.foldl min (l.headD 0)

/-- Values of column `j` of a row-major rational block. -/
def colVals (rows : List (List ℚ)) (j : Nat) : List ℚ :=
  rows.map (fun r => r.getD j 0)

/-- Result of `_transform_raster` (`transform.py`, lines 39-85).  The lazily
resampled array itself is produced by the external array-compute collaborator
(`dask_image.ndinterp.affine_transform`); the embedding keeps the data-only
resampling plan passed to it: the output shape and the back-mapping matrix. -/
structure RasterResult (n : Nat) where
  outputShape : List ℤ
  resampleMatrix : Matrix (Fin (n + 1)) (Fin (n + 1)) ℚ
  translationVector : List ℚ
  rasterTranslation : BaseTransformation

/-- The spatial shape of a raster: the last `d` extents
(`data.shape[len(data.shape) - n_spatial_dims:]`). -/
def spatialShapeOf (shape : List Nat) (axes : List String) : List Nat :=
  shape.drop (shape.length - nSpatialDims axes)

/-- Homogeneous corner rows of `_transform_raster` (`transform.py`, lines
45-49): the `2^d` binary rows scaled elementwise by the spatial shape, a
zero channel column prepended when a `c` axis is present, and a final
homogeneous `1`. -/
def cornerRows (shape : List Nat) (axes : List String) : List (List ℚ) :=
  (productBits (nSpatialDims axes)).map (fun b =>
    (if "c" ∈ axes then [(0 : ℚ)] else []) ++
      List.zipWith (· * ·) b ((spatialShapeOf shape axes).map (Nat.cast)) ++ [1])

/-- Corner rows mapped through the transform's matrix
(`new_v = (matrix @ v.T).T`, `transform.py`, lines 50-51). -/
def mappedCorners (shape : List Nat) (axes : List String) (t : BaseTransformation) :
    List (List ℚ) :=
  (cornerRows shape axes).map (fun r =>
    List.ofFn ((toAffineMatrix t axes).mulVec (fun j => r.getD j 0)))

/-- The new spatial shape (`transform.py`, lines 53-55): per spatial axis,
Python `int()` of `np.max` minus `np.min` of that axis's mapped corner
coordinates. -/
def newSpatialShapeOf (shape : List Nat) (axes : List String) (t : BaseTransformation) :
    List ℤ :=
  let cLen : Nat := if "c" ∈ axes then 1 else 0
  (List.range (nSpatialDims axes)).map (fun i =>
    pyInt (listMaxQ (colVals (mappedCorners shape axes t) (cLen + i)) -
      listMinQ (colVals (mappedCorners shape axes t) (cLen + i))))

/-- The translation vector (`transform.py`, line 57): per axis (homogeneous
column excluded), the minimum of the mapped corner coordinates. -/
def translationVectorOf (shape : List Nat) (axes : List String) (t : BaseTransformation) :
    List ℚ :=
  (List.range axes.length).map (fun i => listMinQ (colVals (mappedCorners shape axes t) i))

/-- Embedding of `_transform_raster` (`transform.py`, lines 39-85): corner
enumeration, output bounding box, per-axis minimum translation, resampling
matrix `Sequence([translation, transformation.inverse()]).to_affine_matrix`,
and the returned `raster_translation`.  Exceptions (a non-invertible
transform) are modelled by `none`. -/
def transformRaster (shape : List Nat) (axes : List String) (t : BaseTransformation) :
    Option (RasterResult axes.length) :=
  let n := axes.length
  let d := nSpatialDims axes
  let newSpatialShape := newSpatialShapeOf shape axes t
  let cShape : List ℤ := if "c" ∈ axes then [(shape.headD 0 : ℤ)] else []
  let translationVec := translationVectorOf shape axes t
  let translationT := BaseTransformation.translation translationVec axes
  let spatialAxes := axes.drop (n - d)
  match inverse t with
  | none => none
  | some ti =>
    let resample := toAffineMatrix (.sequence [translationT, ti]) axes
    let newPixelSizes : List ℚ :=
      (List.range d).map (fun i =>
        ((newSpatialShape.getD i 0 : ℚ)) / (((spatialShapeOf shape axes).getD i 0 : ℚ)))
    let offset := BaseTransformation.translation
      (newPixelSizes.map (fun p => -p / 2 + 1 / 2)) spatialAxes
    some { outputShape := cShape ++ newSpatialShape
           resampleMatrix := resample
           translationVector := translationVec
           rasterTranslation := .sequence [offset, translationT] }

/-- Homogeneous corner point of the input spatial extent, following the
spec's words (section 4.3 step 1): channel coordinate `0`, spatial
coordinate `i` equal to the full extent when the corner selector picks it,
else `0`, final homogeneous coordinate `1`. -/
def specCornerVec (shape : List Nat) (axes : List String)
    (f : Fin (nSpatialDims axes) → Bool) (j : Fin (axes.length + 1)) : ℚ :=
  if (j : Nat) = axes.length then 1
  else if h : (if "c" ∈ axes then 1 else 0) ≤ (j : Nat) ∧
      (j : Nat) - (if "c" ∈ axes then 1 else 0) < nSpatialDims axes then
    (if f ⟨(j : Nat) - (if "c" ∈ axes then 1 else 0), h.2⟩
      then (((spatialShapeOf shape axes).getD
        ((j : Nat) - (if "c" ∈ axes then 1 else 0)) 0 : Nat) : ℚ)
      else 0)
  else 0

/-- Coordinate `i` (numbered among the spatial axes) of a corner point mapped
through the transform's matrix, following the spec's words (section 4.3
step 2). -/
def specCornerCoord (shape : List Nat) (axes : List String) (t : BaseTransformation)
    (f : Fin (nSpatialDims axes) → Bool) (i : Nat) (hi : i < axes.length + 1) : ℚ :=
  (toAffineMatrix t axes).mulVec (specCornerVec shape axes f) ⟨i, hi⟩

/-- The binary row selected by a corner-choice function. -/
def bitsOfFn {d : Nat} (f : Fin d → Bool) : List ℚ :=
  List.ofFn (fun k => if f k then 1 else 0)

/-- Row-major entry table of a square rational matrix, used to state and
evaluate concrete matrix facts. -/
def matrixEntries {n : Nat} (M : Matrix (Fin n) (Fin n) ℚ) : List (List ℚ) :=
  (List.finRange n).map (fun i => (List.finRange n).map (fun j => M i j))

/-- Structural kind of a spatial entity, matching the `isinstance` dispatch of
`_adjust_transformations` (`transform.py`, lines 131-142): `SpatialImage`,
`MultiscaleSpatialImage`, `DaskDataFrame` (point tables), `GeoDataFrame`
(shape / polygon sets). -/
inductive ElementKind where
  | raster
  | multiscaleRaster
  | pointTable
  | polygonSet

/-- A transformation registry: the per-entity mapping from coordinate-system
name to transform, keys unique, embedded as an association list in insertion
order (Python dict). -/
abbrev Registry := List (String × BaseTransformation)

/-- The checked precondition of `_adjust_transformations` (`transform.py`,
lines 145-148): the freshly transformed element's registry holds exactly one
entry and the entry for the reserved default coordinate system is an
`Identity` instance (a `KeyError` on a different single key also fails). -/
def registryIsFreshIdentity (reg : List (String × BaseTransformation)) : Bool :=
  reg.length = 1 &&
    (match reg.lookup DEFAULT_COORDINATE_SYSTEM with
     | some .identity => true
     | _ => false)

/-- Embedding of `_adjust_transformations` (`transform.py`, lines 88-157).
Arguments follow the source; `currentRegistry` is the registry of the freshly
transformed element (the source reads it with `get_transformation(element,
get_all=True)`).  Failed `assert`s and a `KeyError` on the default
coordinate-system lookup are modelled by `none`; the rewritten registry is
returned.  The key used by `set_transformation` when `to_coordinate_system`
is `None` is the reserved default name (modelled from the spec, section 4.7 /
design note on the global default coordinate-system name).  This helper is
the `to_prepend` computation (`transform.py`, lines 131-143). -/
def adjusterPrepend (kind : ElementKind) (transformation : BaseTransformation)
    (rasterTranslation : Option BaseTransformation) (maintainPositioning : Bool) :
    Option BaseTransformation :=
  match kind with
  | .raster | .multiscaleRaster =>
    if maintainPositioning then
      match rasterTranslation, inverse transformation with
      | some rt, some ti => some (.sequence [rt, ti])
      | _, _ => none
    else rasterTranslation
  | .pointTable | .polygonSet =>
    if rasterTranslation.isSome then none
    else if maintainPositioning then inverse transformation
    else some .identity

/-- Registry rewrite of `_adjust_transformations` (`transform.py`, lines
145-157): the fresh-`Identity` precondition check, then either every old
anchoring prefixed with `to_prepend`, or a single entry for the target
coordinate system. -/
def adjustTransformations (kind : ElementKind) (oldTransformations : Registry)
    (transformation : BaseTransformation) (rasterTranslation : Option BaseTransformation)
    (maintainPositioning : Bool) (toCoordinateSystem : Option String)
    (currentRegistry : Registry) : Option Registry :=
  if maintainPositioning ∧ toCoordinateSystem ≠ none then none
  else
    match adjusterPrepend kind transformation rasterTranslation maintainPositioning with
    | none => none
    | some pre =>
      if registryIsFreshIdentity currentRegistry then
        if maintainPositioning then
          some (oldTransformations.map (fun p => (p.1, .sequence [pre, p.2])))
        else
          some [(toCoordinateSystem.getD DEFAULT_COORDINATE_SYSTEM, pre)]
      else none

/-- Error kinds surfaced by `_validate_target_coordinate_systems`
(`transform.py`, lines 160-186), named as in the spec (section 7): the
`RuntimeError` carrying `ERROR_MSG_AFTER_0_0_15` is the ambiguity error, a
failed registry lookup is `CoordinateSystemNotFoundError`, and the failed
exclusive-or assertion under `maintain_positioning=True` is
`InvalidArgumentError`. -/
inductive ResolveError where
  | ambiguousTransform
  | coordinateSystemNotFound
  | invalidArgument

/-- Embedding of `_validate_target_coordinate_systems` (`transform.py`,
lines 160-186): resolves the one transform to apply and the target
coordinate system from caller intent. -/
def validateTargetCoordinateSystems (registry : Registry)
    (transformation : Option BaseTransformation) (maintainPositioning : Bool)
    (toCoordinateSystem : Option String) :
    Except ResolveError (BaseTransformation × Option String) :=
  if maintainPositioning = false then
    match transformation, toCoordinateSystem with
    | none, some cs =>
      match registry.lookup cs with
      | some tr => .ok (tr, some cs)
      | none => .error .coordinateSystemNotFound
    | some tr, none =>
      if registry.length = 1 ∧ btBEq tr (registry.headD ("", .identity)).2 then
        .ok (tr, some (registry.headD ("", .identity)).1)
      else .error .ambiguousTransform
    | _, _ => .error .ambiguousTransform
  else
    match transformation, toCoordinateSystem with
    | some tr, none => .ok (tr, none)
    | none, some cs =>
      match registry.lookup cs with
      | some tr => .ok (tr, none)
      | none => .error .coordinateSystemNotFound
    | _, _ => .error .invalidArgument

/-- Embedding of the per-level transform selection of the
`MultiscaleSpatialImage` register of `transform` (`transform.py`, lines
340-349): level `scale0` is transformed with the resolved transform
directly; any other level first composes its own intrinsic scale `S`
(extracted from the level's registry by `_get_scale`, here passed in
directly) as `Sequence([S, transformation, S.inverse()])`. -/
def multiscaleLevelTransform (levelKey : String) (levelScale : BaseTransformation)
    (transformation : BaseTransformation) : Option BaseTransformation :=
  if levelKey = "scale0" then some transformation
  else (inverse levelScale).map (fun si => .sequence [levelScale, transformation, si])

/-- A point table: one coordinate column per spatial axis (each of length
`N`) plus the remaining, non-coordinate columns. -/
structure PointsElement where
  coordColumns : List (List ℚ)
  otherColumns : List (String × List ℚ)

/-- Row-major view of a column-major block: embedding of the
`da.concatenate` of the per-axis columns into an `N x D` block
(`transform.py`, lines 395-398). -/
def transposeRows (n : Nat) (cols : List (List ℚ)) : List (List ℚ) :=
  (List.range n).map (fun i => cols.map (fun c => c.getD i 0))

/-- Modelled from the spec: `BaseTransformation._transform_coordinates` —
builds homogeneous coordinates per row and left-multiplies by the transform's
matrix with `input_axes = output_axes` = the spatial axis names (spec
section 4.5), keeping the first `D` components. -/
def transformCoordinates (t : BaseTransformation) (axes : List String)
    (rows : List (List ℚ)) : List (List ℚ) :=
  let M := toAffineMatrix t axes
  rows.map (fun p =>
    (List.ofFn (M.mulVec (fun j => if (j : Nat) = axes.length then 1 else p.getD j 0))).take
      axes.length)

/-- Embedding of the `DaskDataFrame` register of `transform` (`transform.py`,
lines 391-419), data part: the coordinate columns are assembled into rows,
transformed, and written back per axis; every non-coordinate column is
carried over unchanged by `data.drop(columns=list(axes)).copy()`. -/
def transformPoints (data : PointsElement) (axes : List String)
    (t : BaseTransformation) : PointsElement :=
  let n := (data.coordColumns.headD []).length
  let rows := transposeRows n data.coordColumns
  let newRows := transformCoordinates t axes rows
  { coordColumns := (List.range axes.length).map (fun j => newRows.map (fun r => r.getD j 0))
    otherColumns := data.otherColumns }

/-- A vector geometry: a point or a polygon given by its ring vertices. -/
inductive Geometry where
  | point (coords : List ℚ)
  | polygon (vertices : List (List ℚ))

/-- Affine action on one coordinate tuple, as performed by shapely's
`affine_transform` with the row-major coefficient list built from the
transform's matrix (`transform.py`, lines 439-441). -/
def affinePoint (n : Nat) (M : Matrix (Fin (n + 1)) (Fin (n + 1)) ℚ) (p : List ℚ) : List ℚ :=
  (List.ofFn (M.mulVec (fun j => if (j : Nat) = n then 1 else p.getD j 0))).take n

/-- Affine action on a geometry. -/
def transformGeometry (n : Nat) (M : Matrix (Fin (n + 1)) (Fin (n + 1)) ℚ) :
    Geometry → Geometry
  | .point c => .point (affinePoint n M c)
  | .polygon vs => .polygon (vs.map (affinePoint n M))

/-- A shapes element: the geometry column plus the optional scalar `radius`
column. -/
structure ShapesElement where
  geometry : List Geometry
  radius : Option (List ℚ)

/-- Outcome of transforming a shapes element; `warned` records whether the
anisotropy advisory warning was emitted. -/
structure ShapesOutcome where
  geometry : List Geometry
  radius : Option (List ℚ)
  warned : Bool

/-- Embedding of `np.allclose(a, b)` for a scalar `b` with numpy's default
tolerances `rtol = 1e-05`, `atol = 1e-08`. -/
def npAllclose (a : List ℚ) (b : ℚ) : Bool :=
  a.all (fun x => |x - b| ≤ 1 / 100000000 + |b| * (1 / 100000))

/-- Embedding of `np.mean`. -/
def npMean (l : List ℚ) : ℚ := l.foldl (· + ·) 0 / l.length

/-- Embedding of the `GeoDataFrame` register of `transform` (`transform.py`,
lines 422-459), data part.  `modules` are the absolute values of the
eigenvalues of the linear block of the transform's matrix, computed by the
external numeric collaborator (`np.linalg.eigvals` + `np.absolute`) and
passed in as data.  The radius column is rescaled only when the FIRST
transformed geometry is a `Point` and a `radius` column exists; the scale
factor is the first eigenvalue magnitude when all magnitudes agree within
tolerance, else (with a warning) their mean. -/
def transformShapes (data : ShapesElement) (ndim : Nat) (t : BaseTransformation)
    (modules : List ℚ) : ShapesOutcome :=
  let axes := (["x", "y", "z"] : List String).take ndim
  let M := toAffineMatrix t axes
  let geoms := data.geometry.map (transformGeometry axes.length M)
  let isPointFirst : Bool := match geoms.head? with
    | some (.point _) => true
    | _ => false
  if isPointFirst ∧ data.radius.isSome then
    let allclose := npAllclose modules (modules.headD 0)
    let factor := if allclose then modules.headD 0 else npMean modules
    { geometry := geoms
      radius := data.radius.map (fun rs => rs.map (fun r => r * factor))
      warned := !allclose }
  else
    { geometry := geoms, radius := data.radius, warned := false }

namespace Polygons

/-- A decimal-printed array entry: the integer-part digits and the
fractional-part digits of numpy's plain-decimal rendering of a non-negative
float (each digit `< 10`, most significant first).  numpy's `repr` of a float
array — the external printing collaborator used by `tensor_to_string` — is
modelled as this exact decimal rendering; an integer-valued float prints with
an empty fractional digit list (`1.0` prints as `1.`). -/
abbrev DecEntry := List Nat × List Nat

/-- Numeric value of a digit list, most significant first. -/
def digitsVal (ds : List Nat) : Nat := ds.foldl (fun a d => 10 * a + d) 0

/-- Numeric value of a decimal-printed entry. -/
def decEntryVal (e : DecEntry) : ℚ :=
  (digitsVal e.1 : ℚ) + (digitsVal e.2 : ℚ) / 10 ^ e.2.length

/-- The character of a single digit. -/
def digitChar (d : Nat) : Char := Char.ofNat (48 + d)

/-- Characters of one printed entry: integer digits, `.`, fractional digits. -/
def renderEntry (e : DecEntry) : List Char :=
  e.1.map digitChar ++ '.' :: e.2.map digitChar

/-- Characters of one printed two-entry row. -/
def renderRow (r : DecEntry × DecEntry) : List Char :=
  '[' :: (renderEntry r.1 ++ ',' :: (renderEntry r.2 ++ [']']))

/-- Characters of the comma-separated printed rows. -/
def renderRows : List (DecEntry × DecEntry) → List Char
  | [] => []
  | [r] => renderRow r
  | r :: rs => renderRow r ++ ',' :: renderRows rs

/-- Embedding of `Polygons.tensor_to_string` (`elements.py`, lines 217-223):
`repr(x)` with newlines and spaces removed and the surrounding `array(` /
`)` stripped, leaving `[[a,b],[c,d],...]` with each entry in numpy's decimal
rendering.  The function's internal `eval` consistency check always passes on
this domain and does not affect the output. -/
def tensor_to_string (rows : List (DecEntry × DecEntry)) : String :=
  ⟨'[' :: (renderRows rows ++ [']'])⟩

/-- One-or-more decimal digits: the matched digit characters and the rest. -/
def parseDigitList (cs : List Char) : Option (List Char × List Char) :=
  let ds := cs.takeWhile Char.isDigit
  if ds.isEmpty then none else some (ds, cs.dropWhile Char.isDigit)

/-- Numeric value of parsed digit characters. -/
def digitsOfChars (ds : List Char) : Nat :=
  ds.foldl (fun a c => 10 * a + (c.toNat - 48)) 0

/-- The regex atom `[0-9]+\.[0-9]+` together with Python's value of the
matched float literal. -/
def parseNum (cs : List Char) : Option (ℚ × List Char) :=
  match parseDigitList cs with
  | none => none
  | some (ip, rest) =>
    match rest with
    | c :: rest2 =>
      if c = '.' then
        match parseDigitList rest2 with
        | none => none
        | some (fp, rest3) =>
          some ((digitsOfChars ip : ℚ) + (digitsOfChars fp : ℚ) / 10 ^ fp.length, rest3)
      else none
    | [] => none

/-- The regex group `\[[0-9]+\.[0-9]+,[0-9]+\.[0-9]+\]` with its value. -/
def parseGroup (cs : List Char) : Option (List ℚ × List Char) :=
  match cs with
  | c :: cs1 =>
    if c = '[' then
      match parseNum cs1 with
      | some (q1, r1) =>
        match r1 with
        | c1 :: r2 =>
          if c1 = ',' then
            match parseNum r2 with
            | some (q2, r3) =>
              match r3 with
              | c2 :: r4 => if c2 = ']' then some ([q1, q2], r4) else none
              | [] => none
            | none => none
          else none
        | [] => none
      | none => none
    else none
  | [] => none

theorem parseDigitList_length {cs ds r : List Char} (h : parseDigitList cs = some (ds, r)) :
    r.length < cs.length := by
  unfold parseDigitList at h
  by_cases hd : (cs.takeWhile Char.isDigit).isEmpty
  · simp [hd] at h
  · simp only [hd, if_false, Option.some.injEq, Prod.mk.injEq] at h
    obtain ⟨hds, hr⟩ := h
    have hsplit := cs.takeWhile_append_dropWhile (p := Char.isDigit)
    have hlen : (cs.takeWhile Char.isDigit).length + (cs.dropWhile Char.isDigit).length
        = cs.length := by
      rw [← List.length_append, hsplit]
    have hpos : 0 < (cs.takeWhile Char.isDigit).length := by
      cases htw : cs.takeWhile Char.isDigit with
      | nil => rw [htw] at hd; simp at hd
      | cons a l => simp [htw]
    omega

theorem parseNum_length {cs : List Char} {q : ℚ} {r : List Char}
    (h : parseNum cs = some (q, r)) : r.length < cs.length := by
  unfold parseNum at h
  cases h1 : parseDigitList cs with
  | none => rw [h1] at h; exact absurd h (by simp)
  | some pr =>
    obtain ⟨ip, rest⟩ := pr
    rw [h1] at h
    cases rest with
    | nil => exact absurd h (by simp)
    | cons c rest2 =>
      dsimp only at h
      by_cases hc : c = '.'
      · rw [if_pos hc] at h
        cases h2 : parseDigitList rest2 with
        | none => rw [h2] at h; exact absurd h (by simp)
        | some pr2 =>
          obtain ⟨fp, rest3⟩ := pr2
          rw [h2] at h
          simp only [Option.some.injEq, Prod.mk.injEq] at h
          obtain ⟨hq, hr⟩ := h
          subst hr
          have l1 := parseDigitList_length h1
          have l2 := parseDigitList_length h2
          simp only [List.length_cons] at l1
          omega
      · rw [if_neg hc] at h
        exact absurd h (by simp)

theorem parseGroup_length {cs : List Char} {g : List ℚ} {r : List Char}
    (h : parseGroup cs = some (g, r)) : r.length < cs.length := by
  unfold parseGroup at h
  cases cs with
  | nil => exact absurd h (by simp)
  | cons c cs1 =>
    dsimp only at h
    by_cases hc : c = '['
    · rw [if_pos hc] at h
      cases h1 : parseNum cs1 with
      | none => rw [h1] at h; exact absurd h (by simp)
      | some p1 =>
        obtain ⟨q1, r1⟩ := p1
        rw [h1] at h
        cases r1 with
        | nil => exact absurd h (by simp)
        | cons c1 r2 =>
          dsimp only at h
          by_cases hc1 : c1 = ','
          · rw [if_pos hc1] at h
            cases h2 : parseNum r2 with
            | none => rw [h2] at h; exact absurd h (by simp)
            | some p2 =>
              obtain ⟨q2, r3⟩ := p2
              rw [h2] at h
              cases r3 with
              | nil => exact absurd h (by simp)
              | cons c2 r4 =>
                dsimp only at h
                by_cases hc2 : c2 = ']'
                · rw [if_pos hc2] at h
                  simp only [Option.some.injEq, Prod.mk.injEq] at h
                  obtain ⟨hg, hr⟩ := h
                  subst hr
                  have l1 := parseNum_length h1
                  have l2 := parseNum_length h2
                  simp only [List.length_cons] at l1 l2 ⊢
                  omega
                · rw [if_neg hc2] at h
                  exact absurd h (by simp)
          · rw [if_neg hc1] at h
            exact absurd h (by simp)
    · rw [if_neg hc] at h
      exact absurd h (by simp)

/-- The regex loop `(?:GROUP,?)+`, greedy and deterministic: after each
group an optional comma; the loop continues exactly when the next character
opens another group. -/
def parseGroups (cs : List Char) : Option (List (List ℚ) × List Char) :=
  match h : parseGroup cs with
  | none => none
  | some (g, r) =>
    match r with
    | c :: r2 =>
      if c = ',' then
        if r2.head? = some '[' then
          match parseGroups r2 with
          | some (gs, r3) => some (g :: gs, r3)
          | none => none
        else some ([g], r2)
      else if c = '[' then
        match parseGroups (c :: r2) with
        | some (gs, r3) => some (g :: gs, r3)
        | none => none
      else some ([g], c :: r2)
    | [] => some ([g], [])
termination_by cs.length
decreasing_by
  · have := parseGroup_length h
    simp only [List.length_cons] at this
    omega
  · have := parseGroup_length h
    simp only [List.length_cons] at this ⊢
    omega

/-- Embedding of `Polygons.string_to_tensor` (`elements.py`, lines 225-230):
`re.fullmatch` of `^\[(?:\[[0-9]+\.[0-9]+,[0-9]+\.[0-9]+\],?)+\]$` followed
by `np.array(eval(s))` on success, the implicit `None` on failure. -/
def string_to_tensor (s : String) : Option (List (List ℚ)) :=
  match s.data with
  | '[' :: cs =>
    match parseGroups cs with
    | some (gs, [']']) => some gs
    | _ => none
  | _ => none

end Polygons

/-! ## Helper lemmas -/

theorem le_foldl_max (l : List ℚ) (a : ℚ) : a ≤ l.foldl max a := by
  induction l generalizing a with
  | nil => exact le_refl a
  | cons b l ih => exact le_trans (le_max_left a b) (ih (max a b))

theorem mem_le_foldl_max (l : List ℚ) (a x : ℚ) (hx : x ∈ l) : x ≤ l.foldl max a := by
  induction l generalizing a with
  | nil => cases hx
  | cons b l ih =>
    rcases List.mem_cons.mp hx with h | h
    · subst h
      exact le_trans (le_max_right a x) (le_foldl_max l (max a x))
    · exact ih (max a b) h

theorem foldl_max_cases (l : List ℚ) (a : ℚ) : l.foldl max a = a ∨ l.foldl max a ∈ l := by
  induction l generalizing a with
  | nil => exact Or.inl rfl
  | cons b l ih =>
    rcases ih (max a b) with h | h
    · rcases max_cases a b with ⟨hm, _⟩ | ⟨hm, _⟩
      · exact Or.inl (by rw [List.foldl_cons, h, hm])
      · exact Or.inr (by rw [List.foldl_cons, h, hm]; exact List.mem_cons_self b l)
    · exact Or.inr (List.mem_cons_of_mem b h)

theorem listMaxQ_mem {l : List ℚ} (h : l ≠ []) : listMaxQ l ∈ l := by
  cases l with
  | nil => exact absurd rfl h
  | cons b l =>
    rcases foldl_max_cases (b :: l) ((b :: l).headD 0) with h' | h'
    · rw [listMaxQ, h']; exact List.mem_cons_self b l
    · exact h'

theorem le_listMaxQ {l : List ℚ} {x : ℚ} (hx : x ∈ l) : x ≤ listMaxQ l :=
  mem_le_foldl_max l (l.headD 0) x hx

theorem foldl_min_le (l : List ℚ) (a : ℚ) : l.foldl min a ≤ a := by
  induction l generalizing a with
  | nil => exact le_refl a
  | cons b l ih => exact le_trans (ih (min a b)) (min_le_left a b)

theorem foldl_min_le_mem (l : List ℚ) (a x : ℚ) (hx : x ∈ l) : l.foldl min a ≤ x := by
  induction l generalizing a with
  | nil => cases hx
  | cons b l ih =>
    rcases List.mem_cons.mp hx with h | h
    · subst h
      exact le_trans (foldl_min_le l (min a x)) (min_le_right a x)
    · exact ih (min a b) h

theorem foldl_min_cases (l : List ℚ) (a : ℚ) : l.foldl min a = a ∨ l.foldl min a ∈ l := by
  induction l generalizing a with
  | nil => exact Or.inl rfl
  | cons b l ih =>
    rcases ih (min a b) with h | h
    · rcases min_cases a b with ⟨hm, _⟩ | ⟨hm, _⟩
      · exact Or.inl (by rw [List.foldl_cons, h, hm])
      · exact Or.inr (by rw [List.foldl_cons, h, hm]; exact List.mem_cons_self b l)
    · exact Or.inr (List.mem_cons_of_mem b h)

theorem listMinQ_mem {l : List ℚ} (h : l ≠ []) : listMinQ l ∈ l := by
  cases l with
  | nil => exact absurd rfl h
  | cons b l =>
    rcases foldl_min_cases (b :: l) ((b :: l).headD 0) with h' | h'
    · rw [listMinQ, h']; exact List.mem_cons_self b l
    · exact h'

theorem listMinQ_le {l : List ℚ} {x : ℚ} (hx : x ∈ l) : listMinQ l ≤ x :=
  foldl_min_le_mem l (l.headD 0) x hx

theorem toAffineMatrix_sequence_two (a b : BaseTransformation) (axes : List String) :
    toAffineMatrix (.sequence [a, b]) axes
      = toAffineMatrix b axes * toAffineMatrix a axes := by
  show (1 * toAffineMatrix b axes) * toAffineMatrix a axes
    = toAffineMatrix b axes * toAffineMatrix a axes
  rw [one_mul]

theorem toAffineMatrix_sequence_three (a b c : BaseTransformation) (axes : List String) :
    toAffineMatrix (.sequence [a, b, c]) axes
      = toAffineMatrix c axes * toAffineMatrix b axes * toAffineMatrix a axes := by
  show ((1 * toAffineMatrix c axes) * toAffineMatrix b axes) * toAffineMatrix a axes
    = toAffineMatrix c axes * toAffineMatrix b axes * toAffineMatrix a axes
  rw [one_mul]

theorem translation_apply_ne (v : List ℚ) (ta axes : List String)
    (i k : Fin (axes.length + 1)) (hi : (i : Nat) ≠ axes.length) :
    toAffineMatrix (.translation v ta) axes i k
      = (if (k : Nat) = (i : Nat) then (1 : ℚ) else 0)
        + (if (k : Nat) = axes.length then axisComp v ta (axes.getD i "") 0 else 0) := by
  rw [toAffineMatrix]
  simp only [Matrix.of_apply, if_neg hi]
  by_cases hki : (k : Nat) = (i : Nat)
  · have hkn : ¬ (k : Nat) = axes.length := by rw [hki]; exact hi
    rw [if_pos hki, if_pos hki, if_neg hkn, add_zero]
  · rw [if_neg hki, if_neg hki, zero_add]

theorem translation_apply_last (v : List ℚ) (ta axes : List String)
    (i k : Fin (axes.length + 1)) (hi : (i : Nat) = axes.length) :
    toAffineMatrix (.translation v ta) axes i k
      = if (k : Nat) = axes.length then (1 : ℚ) else 0 := by
  rw [toAffineMatrix]
  simp only [Matrix.of_apply, if_pos hi]

theorem translation_mulVec_apply (v : List ℚ) (ta axes : List String)
    (x : Fin (axes.length + 1) → ℚ) (i : Fin (axes.length + 1))
    (hi : (i : Nat) ≠ axes.length) :
    (toAffineMatrix (.translation v ta) axes).mulVec x i
      = x i + axisComp v ta (axes.getD i "") 0 * x (Fin.last axes.length) := by
  rw [Matrix.mulVec, Matrix.dotProduct]
  have hterm : ∀ k, toAffineMatrix (.translation v ta) axes i k * x k
      = (if k = i then x k else 0)
        + (if k = Fin.last axes.length
            then axisComp v ta (axes.getD i "") 0 * x k else 0) := by
    intro k
    rw [translation_apply_ne v ta axes i k hi]
    by_cases hki : (k : Nat) = (i : Nat)
    · have : k = i := Fin.ext hki
      subst this
      have hkn : ¬ k = Fin.last axes.length := by
        intro h; exact hi (by rw [h]; rfl)
      rw [if_pos hki, if_pos rfl, if_neg (by rw [hki]; exact hi), if_neg hkn]
      ring
    · have hne : ¬ k = i := fun h => hki (by rw [h])
      rw [if_neg hki, if_neg hne]
      by_cases hkn : (k : Nat) = axes.length
      · rw [if_pos hkn, if_pos (Fin.ext hkn)]
        ring
      · rw [if_neg hkn, if_neg (fun h => hkn (by rw [h]; rfl))]
        ring
  rw [Finset.sum_congr rfl (fun k _ => hterm k), Finset.sum_add_distrib,
    Finset.sum_ite_eq' Finset.univ i (fun k => x k),
    Finset.sum_ite_eq' Finset.univ (Fin.last axes.length)
      (fun k => axisComp v ta (axes.getD i "") 0 * x k)]
  simp

theorem translation_mul_translation (v w : List ℚ) (ta tb axes : List String) :
    toAffineMatrix (.translation v ta) axes * toAffineMatrix (.translation w tb) axes
      = Matrix.of fun (i j : Fin (axes.length + 1)) =>
          if (i : Nat) = axes.length then (if (j : Nat) = axes.length then (1 : ℚ) else 0)
          else if (j : Nat) = (i : Nat) then 1
          else if (j : Nat) = axes.length
            then axisComp w tb (axes.getD i "") 0 + axisComp v ta (axes.getD i "") 0
          else 0 := by
  ext i j
  rw [Matrix.mul_apply, Matrix.of_apply]
  by_cases hi : (i : Nat) = axes.length
  · have hterm : ∀ k, toAffineMatrix (.translation v ta) axes i k
        * toAffineMatrix (.translation w tb) axes k j
        = if k = Fin.last axes.length
            then toAffineMatrix (.translation w tb) axes k j else 0 := by
      intro k
      rw [translation_apply_last v ta axes i k hi]
      by_cases hkn : (k : Nat) = axes.length
      · rw [if_pos hkn, if_pos (Fin.ext hkn), one_mul]
      · rw [if_neg hkn, if_neg (fun h => hkn (by rw [h]; rfl)), zero_mul]
    rw [Finset.sum_congr rfl (fun k _ => hterm k),
      Finset.sum_ite_eq' Finset.univ (Fin.last axes.length)
        (fun k => toAffineMatrix (.translation w tb) axes k j)]
    simp only [Finset.mem_univ, if_pos, if_true]
    rw [translation_apply_last w tb axes (Fin.last axes.length) j rfl, if_pos hi]
  · have hterm : ∀ k, toAffineMatrix (.translation v ta) axes i k
        * toAffineMatrix (.translation w tb) axes k j
        = (if k = i then toAffineMatrix (.translation w tb) axes k j else 0)
          + (if k = Fin.last axes.length
              then axisComp v ta (axes.getD i "") 0
                * toAffineMatrix (.translation w tb) axes k j else 0) := by
      intro k
      rw [translation_apply_ne v ta axes i k hi]
      by_cases hki : (k : Nat) = (i : Nat)
      · have hk : k = i := Fin.ext hki
        have hkn : ¬ k = Fin.last axes.length := by
          intro h; exact hi (by rw [← hki, h]; rfl)
        rw [if_pos hki, if_neg (by rw [hki]; exact hi), if_pos hk, if_neg hkn]
        ring
      · have hne : ¬ k = i := fun h => hki (by rw [h])
        rw [if_neg hki, if_neg hne]
        by_cases hkn : (k : Nat) = axes.length
        · rw [if_pos hkn, if_pos (Fin.ext hkn)]
          ring
        · rw [if_neg hkn, if_neg (fun h => hkn (by rw [h]; rfl))]
          ring
    rw [Finset.sum_congr rfl (fun k _ => hterm k), Finset.sum_add_distrib,
      Finset.sum_ite_eq' Finset.univ i
        (fun k => toAffineMatrix (.translation w tb) axes k j),
      Finset.sum_ite_eq' Finset.univ (Fin.last axes.length)
        (fun k => axisComp v ta (axes.getD i "") 0
          * toAffineMatrix (.translation w tb) axes k j)]
    simp only [Finset.mem_univ, if_true]
    rw [translation_apply_ne w tb axes i j hi,
      translation_apply_last w tb axes (Fin.last axes.length) j rfl, if_neg hi]
    have hi' : ¬ axes.length = (i : Nat) := fun h => hi h.symm
    by_cases hj : (j : Nat) = axes.length
    · have hji : ¬ (j : Nat) = (i : Nat) := by rw [hj]; exact fun h => hi h.symm
      simp only [hj, hji, hi, hi', if_true, if_false, ite_true, ite_false,
        eq_self_iff_true]
      ring
    · by_cases hji : (j : Nat) = (i : Nat)
      · simp only [hj, hji, hi, hi', if_true, if_false, ite_true, ite_false,
          eq_self_iff_true]
        ring
      · simp only [hj, hji, hi, hi', if_true, if_false, ite_true, ite_false]
        ring

theorem getD_map_neg (v : List ℚ) (m : Nat) :
    (v.map Neg.neg).getD m 0 = -(v.getD m 0) := by
  by_cases hm : m < v.length
  · rw [List.getD_eq_getElem _ _ (by simpa using hm), List.getD_eq_getElem _ _ hm,
      List.getElem_map]
  · rw [List.getD_eq_default _ _ (by simpa using Nat.le_of_not_lt hm),
      List.getD_eq_default _ _ (Nat.le_of_not_lt hm), neg_zero]

theorem translation_mul_neg (v : List ℚ) (ta axes : List String) :
    toAffineMatrix (.translation (v.map Neg.neg) ta) axes
        * toAffineMatrix (.translation v ta) axes = 1 := by
  rw [translation_mul_translation]
  ext i j
  rw [Matrix.of_apply, Matrix.one_apply]
  by_cases hi : (i : Nat) = axes.length
  · by_cases hj : (j : Nat) = axes.length
    · rw [if_pos hi, if_pos hj, if_pos (Fin.ext (hi.trans hj.symm))]
    · rw [if_pos hi, if_neg hj, if_neg (fun h => hj (by rw [← h]; exact hi))]
  · rw [if_neg hi]
    by_cases hji : (j : Nat) = (i : Nat)
    · rw [if_pos hji, if_pos (Fin.ext hji).symm]
    · have hij : ¬ i = j := fun h => hji (by rw [h])
      rw [if_neg hji, if_neg hij]
      by_cases hj : (j : Nat) = axes.length
      · rw [if_pos hj]
        unfold axisComp
        rw [getD_map_neg]
        ring
      · rw [if_neg hj]

theorem mem_productBits_iff {d : Nat} {x : List ℚ} :
    x ∈ productBits d ↔ ∃ f : Fin d → Bool, x = bitsOfFn f := by
  induction d generalizing x with
  | zero =>
    constructor
    · intro hx
      refine ⟨fun _ => false, ?_⟩
      simp only [productBits, List.mem_singleton] at hx
      simp [hx, bitsOfFn]
    · intro h
      obtain ⟨f, hf⟩ := h
      simp [productBits, hf, bitsOfFn]
  | succ d ih =>
    constructor
    · intro hx
      simp only [productBits, List.mem_flatMap, List.mem_map] at hx
      obtain ⟨a, ha, r, hr, hxr⟩ := hx
      obtain ⟨g, hg⟩ := ih.mp hr
      have ha' : a = 0 ∨ a = 1 := by simpa using ha
      rcases ha' with h0 | h1
      · refine ⟨Fin.cons false g, ?_⟩
        rw [← hxr, hg, h0, bitsOfFn, bitsOfFn, List.ofFn_succ]
        simp [Fin.cons_zero, Fin.cons_succ]
      · refine ⟨Fin.cons true g, ?_⟩
        rw [← hxr, hg, h1, bitsOfFn, bitsOfFn, List.ofFn_succ]
        simp [Fin.cons_zero, Fin.cons_succ]
    · intro h
      obtain ⟨f, hf⟩ := h
      simp only [productBits, List.mem_flatMap, List.mem_map]
      refine ⟨if f 0 then 1 else 0, by by_cases h : f 0 <;> simp [h],
        bitsOfFn (fun k => f k.succ), ih.mpr ⟨_, rfl⟩, ?_⟩
      rw [hf, bitsOfFn, bitsOfFn, List.ofFn_succ]

theorem productBits_ne_nil (d : Nat) : productBits d ≠ [] := by
  have : bitsOfFn (fun _ : Fin d => false) ∈ productBits d :=
    mem_productBits_iff.mpr ⟨_, rfl⟩
  exact List.ne_nil_of_mem this

theorem spatialShapeOf_length (shape : List Nat) (axes : List String)
    (hlen : shape.length = axes.length)
    (hcd : (if "c" ∈ axes then 1 else 0) + nSpatialDims axes = axes.length) :
    (spatialShapeOf shape axes).length = nSpatialDims axes := by
  unfold spatialShapeOf
  rw [List.length_drop]
  omega

theorem cornerRow_getD (shape : List Nat) (axes : List String)
    (hlen : shape.length = axes.length)
    (hcd : (if "c" ∈ axes then 1 else 0) + nSpatialDims axes = axes.length)
    (f : Fin (nSpatialDims axes) → Bool) (j : Fin (axes.length + 1)) :
    ((if "c" ∈ axes then [(0 : ℚ)] else []) ++
        List.zipWith (· * ·) (bitsOfFn f) ((spatialShapeOf shape axes).map (Nat.cast)) ++
        [1]).getD (j : Nat) 0
      = specCornerVec shape axes f j := by
  have hslen := spatialShapeOf_length shape axes hlen hcd
  have hprelen : (if "c" ∈ axes then [(0 : ℚ)] else []).length
      = (if "c" ∈ axes then 1 else 0) := by
    by_cases hc : "c" ∈ axes <;> simp [hc]
  have hmidlen :
      (List.zipWith (· * ·) (bitsOfFn f) ((spatialShapeOf shape axes).map (Nat.cast))).length
        = nSpatialDims axes := by
    rw [List.length_zipWith, List.length_map, hslen, bitsOfFn, List.length_ofFn]
    omega
  rw [List.append_assoc]
  unfold specCornerVec
  by_cases hjn : (j : Nat) = axes.length
  · rw [if_pos hjn]
    rw [List.getD_append_right _ _ _ _ (by omega),
      List.getD_append_right _ _ _ _ (by omega)]
    have hidx : (j : Nat) - (if "c" ∈ axes then [(0 : ℚ)] else []).length -
        (List.zipWith (· * ·) (bitsOfFn f)
          ((spatialShapeOf shape axes).map (Nat.cast))).length = 0 := by omega
    rw [hidx]
    rfl
  · rw [if_neg hjn]
    by_cases hjr : (if "c" ∈ axes then 1 else 0) ≤ (j : Nat) ∧
        (j : Nat) - (if "c" ∈ axes then 1 else 0) < nSpatialDims axes
    · rw [dif_pos hjr]
      rw [List.getD_append_right _ _ _ _ (by omega),
        List.getD_append _ _ _ _ (by omega), hprelen]
      rw [List.getD_eq_getElem _ _ (by omega), List.getElem_zipWith]
      simp only [bitsOfFn]
      rw [List.getElem_ofFn, List.getElem_map]
      by_cases hf : f ⟨(j : Nat) - (if "c" ∈ axes then 1 else 0), hjr.2⟩
      · rw [if_pos hf, if_pos hf, one_mul,
          List.getD_eq_getElem _ _ (by omega)]
      · rw [if_neg hf, if_neg hf, zero_mul]
    · rw [dif_neg hjr]
      have hc : "c" ∈ axes := by
        by_contra hc
        simp only [hc, if_false] at hjr hcd
        omega
      have hj0 : (j : Nat) < (if "c" ∈ axes then [(0 : ℚ)] else []).length := by
        rw [hprelen]
        simp only [hc, if_true] at hjr hcd ⊢
        omega
      rw [List.getD_append _ _ _ _ hj0]
      have hj0' : (j : Nat) = 0 := by
        rw [hprelen] at hj0
        simp only [hc, if_true] at hj0
        omega
      rw [hj0']
      simp [hc]

theorem colVals_mappedCorners_mem_iff (shape : List Nat) (axes : List String)
    (t : BaseTransformation)
    (hlen : shape.length = axes.length)
    (hcd : (if "c" ∈ axes then 1 else 0) + nSpatialDims axes = axes.length)
    (j : Nat) (hj : j < axes.length + 1) (y : ℚ) :
    y ∈ colVals (mappedCorners shape axes t) j
      ↔ ∃ f, y = specCornerCoord shape axes t f j hj := by
  unfold colVals mappedCorners cornerRows
  simp only [List.map_map, List.mem_map, Function.comp]
  constructor
  · rintro ⟨b, hb, rfl⟩
    obtain ⟨f, rfl⟩ := mem_productBits_iff.mp hb
    refine ⟨f, ?_⟩
    rw [List.getD_eq_getElem _ _ (by simpa [List.length_ofFn] using hj),
      List.getElem_ofFn]
    unfold specCornerCoord
    congr 1
    funext k
    exact cornerRow_getD shape axes hlen hcd f k
  · rintro ⟨f, rfl⟩
    refine ⟨bitsOfFn f, mem_productBits_iff.mpr ⟨f, rfl⟩, ?_⟩
    rw [List.getD_eq_getElem _ _ (by simpa [List.length_ofFn] using hj),
      List.getElem_ofFn]
    unfold specCornerCoord
    congr 1
    funext k
    exact cornerRow_getD shape axes hlen hcd f k

theorem colVals_mappedCorners_ne_nil (shape : List Nat) (axes : List String)
    (t : BaseTransformation) (j : Nat) :
    colVals (mappedCorners shape axes t) j ≠ [] := by
  unfold colVals mappedCorners cornerRows
  simp only [List.map_map, ← List.length_pos_iff_ne_nil, List.length_map]
  have := productBits_ne_nil (nSpatialDims axes)
  exact List.length_pos_of_ne_nil this

theorem matrixEntries_getD {n : Nat} (A : Matrix (Fin n) (Fin n) ℚ) (i j : Fin n) :
    ((matrixEntries A).getD (i : Nat) []).getD (j : Nat) 0 = A i j := by
  have hib : (i : Nat) < (List.finRange n).length := by simp [i.isLt]
  have hjb : (j : Nat) < (List.finRange n).length := by simp [j.isLt]
  have h1 : (matrixEntries A).getD (i : Nat) [] = (List.finRange n).map (fun k => A i k) := by
    unfold matrixEntries
    rw [List.getD_eq_getElem _ _ (by simp [i.isLt]), List.getElem_map]
    have hfr : (List.finRange n)[(i : Nat)] = i := by simp [List.getElem_finRange]
    rw [hfr]
  rw [h1, List.getD_eq_getElem _ _ (by simp [j.isLt]), List.getElem_map]
  have hfr : (List.finRange n)[(j : Nat)] = j := by simp [List.getElem_finRange]
  rw [hfr]

theorem matrixEntries_inj {n : Nat} {A B : Matrix (Fin n) (Fin n) ℚ}
    (h : matrixEntries A = matrixEntries B) : A = B := by
  ext i j
  rw [← matrixEntries_getD A i j, ← matrixEntries_getD B i j, h]

theorem translation_mul_neg' (v : List ℚ) (ta axes : List String) :
    toAffineMatrix (.translation v ta) axes
        * toAffineMatrix (.translation (v.map Neg.neg) ta) axes = 1 := by
  rw [translation_mul_translation]
  ext i j
  rw [Matrix.of_apply, Matrix.one_apply]
  by_cases hi : (i : Nat) = axes.length
  · by_cases hj : (j : Nat) = axes.length
    · rw [if_pos hi, if_pos hj, if_pos (Fin.ext (hi.trans hj.symm))]
    · rw [if_pos hi, if_neg hj, if_neg (fun h => hj (by rw [← h]; exact hi))]
  · rw [if_neg hi]
    by_cases hji : (j : Nat) = (i : Nat)
    · rw [if_pos hji, if_pos (Fin.ext hji).symm]
    · have hij : ¬ i = j := fun h => hji (by rw [h])
      rw [if_neg hji, if_neg hij]
      by_cases hj : (j : Nat) = axes.length
      · rw [if_pos hj]
        unfold axisComp
        rw [getD_map_neg]
        ring
      · rw [if_neg hj]

theorem translation_zero_eq_one (v : List ℚ) (ta axes : List String)
    (hv : ∀ x ∈ v, x = 0) :
    toAffineMatrix (.translation v ta) axes = 1 := by
  ext i j
  rw [Matrix.one_apply]
  by_cases hi : (i : Nat) = axes.length
  · rw [translation_apply_last v ta axes i j hi]
    by_cases hj : (j : Nat) = axes.length
    · rw [if_pos hj, if_pos (Fin.ext (hi.trans hj.symm))]
    · rw [if_neg hj, if_neg (fun h => hj (by rw [← h]; exact hi))]
  · rw [translation_apply_ne v ta axes i j hi]
    have hz : axisComp v ta (axes.getD i "") 0 = 0 := by
      unfold axisComp
      by_cases hm : ta.indexOf (axes.getD i "") < v.length
      · rw [List.getD_eq_getElem _ _ hm]
        exact hv _ (List.getElem_mem hm)
      · exact List.getD_eq_default _ _ (Nat.le_of_not_lt hm)
    rw [hz]
    by_cases hji : (j : Nat) = (i : Nat)
    · rw [if_pos hji, if_pos (Fin.ext hji).symm]
      simp
    · have hij : ¬ i = j := fun h => hji (by rw [h])
      rw [if_neg hji, if_neg hij]
      simp

theorem transformRaster_eq_some (shape : List Nat) (axes : List String)
    (t ti : BaseTransformation) (hinv : inverse t = some ti) :
    transformRaster shape axes t = some
      { outputShape := (if "c" ∈ axes then [(shape.headD 0 : ℤ)] else []) ++
          newSpatialShapeOf shape axes t
        resampleMatrix := toAffineMatrix
          (.sequence [.translation (translationVectorOf shape axes t) axes, ti]) axes
        translationVector := translationVectorOf shape axes t
        rasterTranslation := .sequence
          [.translation
            (((List.range (nSpatialDims axes)).map (fun i =>
              ((newSpatialShapeOf shape axes t).getD i 0 : ℚ) /
                (((spatialShapeOf shape axes).getD i 0 : Nat) : ℚ))).map
              (fun p => -p / 2 + 1 / 2))
            (axes.drop (axes.length - nSpatialDims axes)),
          .translation (translationVectorOf shape axes t) axes] } := by
  unfold transformRaster
  rw [hinv]

/-! ## Claim theorems

Concrete witnesses evaluate the embedding by kernel reduction; the rational
field operations are restored to their default reducibility for that purpose
(this changes only elaborator unfolding hints, not any proof's axioms). -/

set_option allowUnsafeReducibility true

attribute [local semireducible] Rat.add Rat.mul Rat.div Rat.sub Rat.neg Rat.inv

/-- Claim C3, amended: for every raster input and every affine transform
applied to it, the output spatial shape is computed per spatial axis as the
Python `int()` TRUNCATION (not the ceiling) of (maximum minus minimum) of
that axis's coordinates over all `2^d` transformed corner points of the
input spatial extent, where `d` is the number of spatial axes. -/
theorem claim3_output_shape (shape : List Nat) (axes : List String)
    (t : BaseTransformation) (os : List ℤ)
    (hlen : shape.length = axes.length)
    (hcd : (if "c" ∈ axes then 1 else 0) + nSpatialDims axes = axes.length)
    (hos : (transformRaster shape axes t).map RasterResult.outputShape = some os)
    (i : Nat) (hi : i < nSpatialDims axes) :
    ∃ hiV loV : ℚ,
      (∃ f, specCornerCoord shape axes t f ((if "c" ∈ axes then 1 else 0) + i)
          (by omega) = hiV) ∧
      (∀ f, specCornerCoord shape axes t f ((if "c" ∈ axes then 1 else 0) + i)
          (by omega) ≤ hiV) ∧
      (∃ f, specCornerCoord shape axes t f ((if "c" ∈ axes then 1 else 0) + i)
          (by omega) = loV) ∧
      (∀ f, loV ≤ specCornerCoord shape axes t f ((if "c" ∈ axes then 1 else 0) + i)
          (by omega)) ∧
      os.getD ((if "c" ∈ axes then 1 else 0) + i) 0 = pyInt (hiV - loV) := by
  have hj : (if "c" ∈ axes then 1 else 0) + i < axes.length + 1 := by omega
  refine ⟨listMaxQ (colVals (mappedCorners shape axes t)
      ((if "c" ∈ axes then 1 else 0) + i)),
    listMinQ (colVals (mappedCorners shape axes t)
      ((if "c" ∈ axes then 1 else 0) + i)), ?_, ?_, ?_, ?_, ?_⟩
  · have hmem := listMaxQ_mem
      (colVals_mappedCorners_ne_nil shape axes t ((if "c" ∈ axes then 1 else 0) + i))
    obtain ⟨f, hf⟩ := (colVals_mappedCorners_mem_iff shape axes t hlen hcd _ hj _).mp hmem
    exact ⟨f, hf.symm⟩
  · intro f
    exact le_listMaxQ ((colVals_mappedCorners_mem_iff shape axes t hlen hcd _ hj _).mpr
      ⟨f, rfl⟩)
  · have hmem := listMinQ_mem
      (colVals_mappedCorners_ne_nil shape axes t ((if "c" ∈ axes then 1 else 0) + i))
    obtain ⟨f, hf⟩ := (colVals_mappedCorners_mem_iff shape axes t hlen hcd _ hj _).mp hmem
    exact ⟨f, hf.symm⟩
  · intro f
    exact listMinQ_le ((colVals_mappedCorners_mem_iff shape axes t hlen hcd _ hj _).mpr
      ⟨f, rfl⟩)
  · cases hinv : inverse t with
    | none =>
      rw [transformRaster, hinv] at hos
      exact absurd hos (by simp)
    | some ti =>
      rw [transformRaster_eq_some shape axes t ti hinv] at hos
      simp only [Option.map_some', Option.some.injEq] at hos
      subst hos
      have hclen : (if "c" ∈ axes then [((shape.headD 0 : Nat) : ℤ)] else []).length
          = (if "c" ∈ axes then 1 else 0) := by
        by_cases hc : "c" ∈ axes <;> simp [hc]
      rw [List.getD_append_right _ _ _ _ (by omega)]
      have hidx : (if "c" ∈ axes then 1 else 0) + i -
          (if "c" ∈ axes then [((shape.headD 0 : Nat) : ℤ)] else []).length = i := by
        omega
      rw [hidx]
      unfold newSpatialShapeOf
      rw [List.getD_eq_getElem _ _ (by simpa using hi), List.getElem_map,
        List.getElem_range]

/-- Claim C3, counterexample: a `3x3` raster scaled by `3/2` has mapped
corner coordinates spanning `[0, 9/2]` on each spatial axis, so the claimed
ceiling rule would give an output extent of `5`, yet the code produces `4`
(`int()` truncation of `9/2`). -/
theorem claim3_counterexample :
    (transformRaster [3, 3] ["y", "x"]
        (.scale [3/2, 3/2] ["y", "x"])).map RasterResult.outputShape = some [4, 4]
    ∧ (∀ f, specCornerCoord [3, 3] ["y", "x"] (.scale [3/2, 3/2] ["y", "x"]) f 0
        (by norm_num [nSpatialDims]) ≤ 9/2)
    ∧ (∃ f, specCornerCoord [3, 3] ["y", "x"] (.scale [3/2, 3/2] ["y", "x"]) f 0
        (by norm_num [nSpatialDims]) = 9/2)
    ∧ (∀ f, (0 : ℚ) ≤ specCornerCoord [3, 3] ["y", "x"] (.scale [3/2, 3/2] ["y", "x"]) f 0
        (by norm_num [nSpatialDims]))
    ∧ (∃ f, specCornerCoord [3, 3] ["y", "x"] (.scale [3/2, 3/2] ["y", "x"]) f 0
        (by norm_num [nSpatialDims]) = 0)
    ∧ ⌈(9/2 - 0 : ℚ)⌉ = 5
    ∧ ([4, 4] : List ℤ).getD 0 0 ≠ 5 := by
  refine ⟨by decide, by decide, ⟨fun _ => true, by decide⟩, by decide,
    ⟨fun _ => false, by decide⟩, by decide, by decide⟩

/-- Witness for the amended C3 theorem at a concrete raster: a `3x3` grid
scaled by `3/2`, first spatial axis. -/
theorem claim3_output_shape_witness :
    ∃ hiV loV : ℚ,
      (∃ f, specCornerCoord [3, 3] ["y", "x"] (.scale [3/2, 3/2] ["y", "x"]) f
          ((if "c" ∈ ["y", "x"] then 1 else 0) + 0) (by decide) = hiV) ∧
      (∀ f, specCornerCoord [3, 3] ["y", "x"] (.scale [3/2, 3/2] ["y", "x"]) f
          ((if "c" ∈ ["y", "x"] then 1 else 0) + 0) (by decide) ≤ hiV) ∧
      (∃ f, specCornerCoord [3, 3] ["y", "x"] (.scale [3/2, 3/2] ["y", "x"]) f
          ((if "c" ∈ ["y", "x"] then 1 else 0) + 0) (by decide) = loV) ∧
      (∀ f, loV ≤ specCornerCoord [3, 3] ["y", "x"] (.scale [3/2, 3/2] ["y", "x"]) f
          ((if "c" ∈ ["y", "x"] then 1 else 0) + 0) (by decide)) ∧
      ([4, 4] : List ℤ).getD ((if "c" ∈ ["y", "x"] then 1 else 0) + 0) 0
        = pyInt (hiV - loV) :=
  claim3_output_shape [3, 3] ["y", "x"] (.scale [3/2, 3/2] ["y", "x"]) [4, 4]
    (by decide) (by decide) (by decide) 0 (by decide)

/-- Claim C2, amended: the matrix handed to the external resampling
collaborator equals the matrix of `Sequence([translation,
transform.inverse()])` itself — NOT the inverse of that matrix as the claim
states.  That matrix back-maps output pixels: it is a two-sided inverse of
the forward output-grid map `Sequence([transform, translation.inverse()])`,
whose matrix is `M(translation)⁻¹ * M(transform)` — here written with the
negated translation vector.  `translation` is the `Translation` by the
per-axis minimum of the transformed corner points. -/
theorem claim2_resample_matrix (shape : List Nat) (axes : List String)
    (t ti : BaseTransformation)
    (P : Matrix (Fin (axes.length + 1)) (Fin (axes.length + 1)) ℚ) (tv : List ℚ)
    (hinv : inverse t = some ti)
    (hti : toAffineMatrix ti axes * toAffineMatrix t axes = 1)
    (hP : (transformRaster shape axes t).map RasterResult.resampleMatrix = some P)
    (htv : (transformRaster shape axes t).map RasterResult.translationVector = some tv) :
    P = toAffineMatrix (.sequence [.translation tv axes, ti]) axes
    ∧ tv = translationVectorOf shape axes t
    ∧ P * (toAffineMatrix (.translation (tv.map Neg.neg) axes) axes
        * toAffineMatrix t axes) = 1 := by
  rw [transformRaster_eq_some shape axes t ti hinv] at hP htv
  simp only [Option.map_some', Option.some.injEq] at hP htv
  subst hP
  subst htv
  refine ⟨rfl, rfl, ?_⟩
  rw [toAffineMatrix_sequence_two, mul_assoc, ← mul_assoc
    (toAffineMatrix (.translation (translationVectorOf shape axes t) axes) axes),
    translation_mul_neg', one_mul, hti]

/-- Claim C2, counterexample: scaling a `3x3` raster by `2` passes the
matrix `diag(1/2, 1/2, 1)` to the resampler; that matrix IS the matrix of
`Sequence([translation, transform.inverse()])` and is not equal to its
inverse (the product of the passed matrix with the matrix of the `Sequence`
is not the identity), refuting the claim as stated. -/
theorem claim2_counterexample :
    (transformRaster [3, 3] ["y", "x"] (.scale [2, 2] ["y", "x"])).map
        (fun r => matrixEntries r.resampleMatrix)
      = some [[1/2, 0, 0], [0, 1/2, 0], [0, 0, 1]]
    ∧ (transformRaster [3, 3] ["y", "x"] (.scale [2, 2] ["y", "x"])).map
        RasterResult.translationVector = some [0, 0]
    ∧ inverse (.scale [2, 2] ["y", "x"]) = some (.scale [1/2, 1/2] ["y", "x"])
    ∧ matrixEntries (toAffineMatrix (.sequence [.translation [0, 0] ["y", "x"],
        .scale [(1:ℚ)/2, 1/2] ["y", "x"]]) ["y", "x"])
      = [[1/2, 0, 0], [0, 1/2, 0], [0, 0, 1]]
    ∧ ¬ ((transformRaster [3, 3] ["y", "x"] (.scale [2, 2] ["y", "x"])).map
        (fun r => r.resampleMatrix *
          toAffineMatrix (.sequence [.translation [0, 0] ["y", "x"],
            .scale [(1:ℚ)/2, 1/2] ["y", "x"]]) ["y", "x"])
      = some 1) :=
  ⟨by decide, by decide, rfl, by decide,
    fun h => absurd (congrArg (fun o => o.map (fun M => matrixEntries M)) h) (by decide)⟩

/-- Witness for the amended C2 theorem at a concrete raster. -/
theorem claim2_resample_matrix_witness :
    toAffineMatrix (.sequence [.translation (translationVectorOf [3, 3] ["y", "x"]
        (.scale [2, 2] ["y", "x"])) ["y", "x"], .scale [1/2, 1/2] ["y", "x"]]) ["y", "x"]
      = toAffineMatrix (.sequence [.translation ([0, 0] : List ℚ) ["y", "x"],
          .scale [1/2, 1/2] ["y", "x"]]) ["y", "x"]
    ∧ ([0, 0] : List ℚ) = translationVectorOf [3, 3] ["y", "x"] (.scale [2, 2] ["y", "x"])
    ∧ toAffineMatrix (.sequence [.translation (translationVectorOf [3, 3] ["y", "x"]
          (.scale [2, 2] ["y", "x"])) ["y", "x"], .scale [1/2, 1/2] ["y", "x"]]) ["y", "x"]
        * (toAffineMatrix (.translation (([0, 0] : List ℚ).map Neg.neg) ["y", "x"]) ["y", "x"]
          * toAffineMatrix (.scale [2, 2] ["y", "x"]) ["y", "x"]) = 1 :=
  claim2_resample_matrix [3, 3] ["y", "x"] (.scale [2, 2] ["y", "x"])
    (.scale [1/2, 1/2] ["y", "x"])
    (toAffineMatrix (.sequence [.translation (translationVectorOf [3, 3] ["y", "x"]
      (.scale [2, 2] ["y", "x"])) ["y", "x"], .scale [1/2, 1/2] ["y", "x"]]) ["y", "x"])
    [0, 0] rfl (matrixEntries_inj (by decide)) rfl (by decide)

theorem registryIsFreshIdentity_iff (cur : Registry) :
    registryIsFreshIdentity cur = true ↔ cur = [(DEFAULT_COORDINATE_SYSTEM, .identity)] := by
  constructor
  · intro h
    unfold registryIsFreshIdentity at h
    rw [Bool.and_eq_true, decide_eq_true_iff] at h
    obtain ⟨hlen, hmatch⟩ := h
    match cur, hlen with
    | [(k, v)], _ =>
      simp only [List.lookup] at hmatch
      cases hk : (DEFAULT_COORDINATE_SYSTEM == k) with
      | false => rw [hk] at hmatch; exact absurd hmatch (by simp)
      | true =>
        rw [hk] at hmatch
        have hkeq : DEFAULT_COORDINATE_SYSTEM = k := by
          exact eq_of_beq hk
        cases v <;> simp_all
  · intro h
    subst h
    rfl

/-- Claim C1: the TransformationAdjuster's registry rewrite, for each of the
four structural kinds and both `maintain_positioning` modes, starting from
the fresh single-`Identity` registry: with `maintain_positioning=true` every
old registry entry `(cs, old)` becomes `(cs, Sequence([to_prepend, old]))`
with `to_prepend = Sequence([raster_translation, transform.inverse()])` for
rasters and `transform.inverse()` for points/shapes; with
`maintain_positioning=false` the registry becomes the single entry for the
target coordinate system valued `raster_translation` (rasters) or `Identity`
(points/shapes). -/
theorem claim1_adjuster_rewrite (old : Registry) (t ti rt : BaseTransformation)
    (cs : String) (hinv : inverse t = some ti) :
    (adjustTransformations .raster old t (some rt) true none
        [(DEFAULT_COORDINATE_SYSTEM, .identity)]
      = some (old.map (fun p => (p.1, .sequence [.sequence [rt, ti], p.2]))))
    ∧ (adjustTransformations .multiscaleRaster old t (some rt) true none
        [(DEFAULT_COORDINATE_SYSTEM, .identity)]
      = some (old.map (fun p => (p.1, .sequence [.sequence [rt, ti], p.2]))))
    ∧ (adjustTransformations .pointTable old t none true none
        [(DEFAULT_COORDINATE_SYSTEM, .identity)]
      = some (old.map (fun p => (p.1, .sequence [ti, p.2]))))
    ∧ (adjustTransformations .polygonSet old t none true none
        [(DEFAULT_COORDINATE_SYSTEM, .identity)]
      = some (old.map (fun p => (p.1, .sequence [ti, p.2]))))
    ∧ (adjustTransformations .raster old t (some rt) false (some cs)
        [(DEFAULT_COORDINATE_SYSTEM, .identity)]
      = some [(cs, rt)])
    ∧ (adjustTransformations .multiscaleRaster old t (some rt) false (some cs)
        [(DEFAULT_COORDINATE_SYSTEM, .identity)]
      = some [(cs, rt)])
    ∧ (adjustTransformations .pointTable old t none false (some cs)
        [(DEFAULT_COORDINATE_SYSTEM, .identity)]
      = some [(cs, .identity)])
    ∧ (adjustTransformations .polygonSet old t none false (some cs)
        [(DEFAULT_COORDINATE_SYSTEM, .identity)]
      = some [(cs, .identity)]) := by
  have hfr : registryIsFreshIdentity [(DEFAULT_COORDINATE_SYSTEM, .identity)] = true := rfl
  refine ⟨?_, ?_, ?_, ?_, ?_, ?_, ?_, ?_⟩ <;>
    simp [adjustTransformations, adjusterPrepend, hinv, hfr]

/-- Witness for C1 at a concrete transform, raster translation and registry. -/
theorem claim1_adjuster_rewrite_witness :
    (adjustTransformations .raster [("cs1", .translation [5] ["x"])]
        (.scale [2] ["x"]) (some (.translation [7] ["x"])) true none
        [(DEFAULT_COORDINATE_SYSTEM, .identity)]
      = some [("cs1", .sequence [.sequence [.translation [7] ["x"],
          .scale [1/2] ["x"]], .translation [5] ["x"]])])
    ∧ (adjustTransformations .multiscaleRaster [("cs1", .translation [5] ["x"])]
        (.scale [2] ["x"]) (some (.translation [7] ["x"])) true none
        [(DEFAULT_COORDINATE_SYSTEM, .identity)]
      = some [("cs1", .sequence [.sequence [.translation [7] ["x"],
          .scale [1/2] ["x"]], .translation [5] ["x"]])])
    ∧ (adjustTransformations .pointTable [("cs1", .translation [5] ["x"])]
        (.scale [2] ["x"]) none true none [(DEFAULT_COORDINATE_SYSTEM, .identity)]
      = some [("cs1", .sequence [.scale [1/2] ["x"], .translation [5] ["x"]])])
    ∧ (adjustTransformations .polygonSet [("cs1", .translation [5] ["x"])]
        (.scale [2] ["x"]) none true none [(DEFAULT_COORDINATE_SYSTEM, .identity)]
      = some [("cs1", .sequence [.scale [1/2] ["x"], .translation [5] ["x"]])])
    ∧ (adjustTransformations .raster [("cs1", .translation [5] ["x"])]
        (.scale [2] ["x"]) (some (.translation [7] ["x"])) false (some "world")
        [(DEFAULT_COORDINATE_SYSTEM, .identity)]
      = some [("world", .translation [7] ["x"])])
    ∧ (adjustTransformations .multiscaleRaster [("cs1", .translation [5] ["x"])]
        (.scale [2] ["x"]) (some (.translation [7] ["x"])) false (some "world")
        [(DEFAULT_COORDINATE_SYSTEM, .identity)]
      = some [("world", .translation [7] ["x"])])
    ∧ (adjustTransformations .pointTable [("cs1", .translation [5] ["x"])]
        (.scale [2] ["x"]) none false (some "world")
        [(DEFAULT_COORDINATE_SYSTEM, .identity)]
      = some [("world", .identity)])
    ∧ (adjustTransformations .polygonSet [("cs1", .translation [5] ["x"])]
        (.scale [2] ["x"]) none false (some "world")
        [(DEFAULT_COORDINATE_SYSTEM, .identity)]
      = some [("world", .identity)]) :=
  claim1_adjuster_rewrite [("cs1", .translation [5] ["x"])] (.scale [2] ["x"])
    (.scale [1/2] ["x"]) (.translation [7] ["x"]) "world" rfl

/-- Claim C4: with `maintain_positioning=false` and an explicit transform
supplied, resolution succeeds exactly when no target coordinate system is
also supplied, the registry has exactly one entry and that entry equals
(structurally) the supplied transform — returning the supplied transform and
the single registry key; in every other case it fails with the ambiguity
error (`RuntimeError` carrying `ERROR_MSG_AFTER_0_0_15`, the spec's
`AmbiguousTransformError`). -/
theorem claim4_explicit_transform_shim (registry : Registry) (t : BaseTransformation)
    (tcs : Option String) :
    (validateTargetCoordinateSystems registry (some t) false tcs
        = .ok (t, some (registry.headD ("", .identity)).1)
      ↔ (tcs = none ∧ registry.length = 1
          ∧ btBEq t (registry.headD ("", .identity)).2 = true))
    ∧ (¬ (tcs = none ∧ registry.length = 1
          ∧ btBEq t (registry.headD ("", .identity)).2 = true)
        → validateTargetCoordinateSystems registry (some t) false tcs
            = .error .ambiguousTransform) := by
  cases tcs with
  | some cs =>
    constructor
    · constructor
      · intro h
        exact absurd h (by simp [validateTargetCoordinateSystems])
      · intro h
        exact absurd h.1 (by simp)
    · intro _
      rfl
  | none =>
    by_cases hcond : registry.length = 1 ∧ btBEq t (registry.headD ("", .identity)).2 = true
    · constructor
      · constructor
        · intro _
          exact ⟨rfl, hcond⟩
        · intro _
          show (if registry.length = 1 ∧ btBEq t (registry.headD ("", .identity)).2 = true
            then _ else _) = _
          rw [if_pos hcond]
      · intro hn
        exact absurd ⟨rfl, hcond⟩ hn
    · constructor
      · constructor
        · intro h
          have : (Except.error ResolveError.ambiguousTransform :
              Except ResolveError (BaseTransformation × Option String))
              = .ok (t, some (registry.headD ("", .identity)).1) := by
            rw [← h]
            show _ = (if registry.length = 1 ∧ btBEq t (registry.headD ("", .identity)).2 = true
              then _ else _)
            rw [if_neg hcond]
          exact absurd this (by simp)
        · intro h
          exact absurd ⟨h.2.1, h.2.2⟩ hcond
      · intro _
        show (if registry.length = 1 ∧ btBEq t (registry.headD ("", .identity)).2 = true
          then _ else _) = _
        rw [if_neg hcond]

/-- Witness for C4: two-entry registry with an explicit transform fails with
the ambiguity error; a one-entry registry with the matching explicit
transform succeeds with the single key. -/
theorem claim4_explicit_transform_shim_witness :
    (validateTargetCoordinateSystems
        [("a", .identity), ("b", .identity)] (some .identity) false none
      = .error .ambiguousTransform)
    ∧ (validateTargetCoordinateSystems [("a", .scale [2] ["x"])]
        (some (.scale [2] ["x"])) false none
      = .ok (.scale [2] ["x"], some "a")) :=
  ⟨(claim4_explicit_transform_shim [("a", .identity), ("b", .identity)]
      .identity none).2 (by intro h; exact absurd h.2.1 (by decide)),
    (claim4_explicit_transform_shim [("a", .scale [2] ["x"])]
      (.scale [2] ["x"]) none).1.mpr ⟨rfl, rfl, rfl⟩⟩

/-- Claim C7: immediately before the TransformationAdjuster rewrites the
transformed entity's registry, that registry must hold exactly one entry,
keyed by the reserved default coordinate-system name and valued `Identity`;
a violation makes the adjuster fail (a failed `assert` / `KeyError`, the
spec's `InvariantViolationError`), for every entity kind and every other
argument. -/
theorem claim7_fresh_identity_precondition (kind : ElementKind) (old : Registry)
    (t : BaseTransformation) (rt : Option BaseTransformation) (mp : Bool)
    (tcs : Option String) (cur : Registry) :
    (∀ res, adjustTransformations kind old t rt mp tcs cur = some res →
        cur = [(DEFAULT_COORDINATE_SYSTEM, .identity)])
    ∧ (cur ≠ [(DEFAULT_COORDINATE_SYSTEM, .identity)] →
        adjustTransformations kind old t rt mp tcs cur = none) := by
  constructor
  · intro res hres
    unfold adjustTransformations at hres
    split at hres
    · exact absurd hres (by simp)
    · cases hpre : adjusterPrepend kind t rt mp with
      | none => rw [hpre] at hres; exact absurd hres (by simp)
      | some pre =>
        rw [hpre] at hres
        dsimp only at hres
        by_cases hfr : registryIsFreshIdentity cur = true
        · exact (registryIsFreshIdentity_iff cur).mp hfr
        · rw [if_neg hfr] at hres
          exact absurd hres (by simp)
  · intro hcur
    have hfr : ¬ registryIsFreshIdentity cur = true :=
      fun h => hcur ((registryIsFreshIdentity_iff cur).mp h)
    unfold adjustTransformations
    split
    · rfl
    · cases hpre : adjusterPrepend kind t rt mp with
      | none => rfl
      | some pre => simp [hfr]


/-- Witness for C7: a registry keyed by a non-default name makes the
adjuster fail, and the lone violation-free registry is accepted. -/
theorem claim7_fresh_identity_precondition_witness :
    adjustTransformations .pointTable [] .identity none true none
      [("other", .identity)] = none :=
  (claim7_fresh_identity_precondition .pointTable [] .identity none true none
    [("other", .identity)]).2
    (by simp [DEFAULT_COORDINATE_SYSTEM])

/-- Claim C6: in the multiscale register, level `scale0` is transformed with
the resolved transform directly, and every other level with
`Sequence([S, transform, S.inverse()])` — apply the level's intrinsic scale
`S` first, then the transform, then `S⁻¹` (the claim's `S ∘ transform ∘ S⁻¹`
read in application order, as the spec writes `Sequence` members) — so that
mapping a level pixel to the level-0 frame and then applying the transform
agrees with transforming the level content first and then mapping up:
`M(S) * M(composed) = M(transform) * M(S)`. -/
theorem claim6_multiscale_levels (key : String) (S Si t : BaseTransformation)
    (axes : List String)
    (hinv : inverse S = some Si)
    (hSSi : toAffineMatrix S axes * toAffineMatrix Si axes = 1) :
    multiscaleLevelTransform "scale0" S t = some t
    ∧ (key ≠ "scale0" →
        multiscaleLevelTransform key S t = some (.sequence [S, t, Si]))
    ∧ toAffineMatrix S axes * toAffineMatrix (.sequence [S, t, Si]) axes
        = toAffineMatrix t axes * toAffineMatrix S axes := by
  refine ⟨rfl, ?_, ?_⟩
  · intro hk
    unfold multiscaleLevelTransform
    rw [if_neg hk, hinv]
    rfl
  · rw [toAffineMatrix_sequence_three, ← mul_assoc, ← mul_assoc, hSSi, one_mul]

/-- Witness for C6 at a concrete pyramid level and scale. -/
theorem claim6_multiscale_levels_witness :
    multiscaleLevelTransform "scale0" (.scale [2, 2] ["y", "x"])
        (.translation [1, 2] ["y", "x"]) = some (.translation [1, 2] ["y", "x"])
    ∧ ("scale1" ≠ "scale0" →
        multiscaleLevelTransform "scale1" (.scale [2, 2] ["y", "x"])
            (.translation [1, 2] ["y", "x"])
          = some (.sequence [.scale [2, 2] ["y", "x"],
              .translation [1, 2] ["y", "x"], .scale [1/2, 1/2] ["y", "x"]]))
    ∧ toAffineMatrix (.scale [2, 2] ["y", "x"]) ["y", "x"]
        * toAffineMatrix (.sequence [.scale [2, 2] ["y", "x"],
            .translation [1, 2] ["y", "x"], .scale [1/2, 1/2] ["y", "x"]]) ["y", "x"]
      = toAffineMatrix (.translation [1, 2] ["y", "x"]) ["y", "x"]
        * toAffineMatrix (.scale [2, 2] ["y", "x"]) ["y", "x"] :=
  claim6_multiscale_levels "scale1" (.scale [2, 2] ["y", "x"])
    (.scale [1/2, 1/2] ["y", "x"]) (.translation [1, 2] ["y", "x"]) ["y", "x"]
    rfl (matrixEntries_inj (by decide))

/-- Claim C8, amended: the radius column is rescaled only when the FIRST
transformed geometry is a point and a `radius` column exists (the source
checks `transformed_geometry.iloc[0]`, not "any geometry"); then, if all
eigenvalue magnitudes agree within numpy's `allclose` tolerance every radius
is multiplied by the first magnitude with no warning, otherwise a warning is
recorded and every radius is multiplied by the mean magnitude. -/
theorem claim8_radius_scaling (c : List ℚ) (rest : List Geometry) (rs : List ℚ)
    (ndim : Nat) (t : BaseTransformation) (modules : List ℚ) :
    ((npAllclose modules (modules.headD 0) = true →
        (transformShapes ⟨.point c :: rest, some rs⟩ ndim t modules).radius
            = some (rs.map (fun r => r * modules.headD 0))
          ∧ (transformShapes ⟨.point c :: rest, some rs⟩ ndim t modules).warned = false))
    ∧ (npAllclose modules (modules.headD 0) = false →
        (transformShapes ⟨.point c :: rest, some rs⟩ ndim t modules).radius
            = some (rs.map (fun r => r * npMean modules))
          ∧ (transformShapes ⟨.point c :: rest, some rs⟩ ndim t modules).warned = true)
    ∧ (transformShapes ⟨.point c :: rest, some rs⟩ ndim t modules).geometry
        = (Geometry.point c :: rest).map (transformGeometry
            ((["x", "y", "z"] : List String).take ndim).length
            (toAffineMatrix t ((["x", "y", "z"] : List String).take ndim))) := by
  have hred : transformShapes ⟨.point c :: rest, some rs⟩ ndim t modules
      = { geometry := (Geometry.point c :: rest).map (transformGeometry
            ((["x", "y", "z"] : List String).take ndim).length
            (toAffineMatrix t ((["x", "y", "z"] : List String).take ndim)))
          radius := some (rs.map (fun r => r *
            (if npAllclose modules (modules.headD 0) then modules.headD 0
              else npMean modules)))
          warned := !(npAllclose modules (modules.headD 0)) } := rfl
  rw [hred]
  refine ⟨?_, ?_, rfl⟩
  · intro hac
    constructor
    · show some (rs.map (fun r => r *
        (if npAllclose modules (modules.headD 0) then modules.headD 0
          else npMean modules))) = _
      rw [if_pos hac]
    · show (!(npAllclose modules (modules.headD 0))) = false
      rw [hac]
      rfl
  · intro hac
    constructor
    · show some (rs.map (fun r => r *
        (if npAllclose modules (modules.headD 0) then modules.headD 0
          else npMean modules))) = _
      rw [if_neg (by rw [hac]; exact Bool.false_ne_true)]
    · show (!(npAllclose modules (modules.headD 0))) = true
      rw [hac]
      rfl

/-- Claim C8, counterexample: a shapes element whose FIRST geometry is a
polygon but whose second geometry is a point, carrying a radius column,
under the isotropic scale-by-2 transform: the claim requires every radius to
be multiplied by the common eigenvalue magnitude `2`, yet the code leaves
the radius column untouched because only the first geometry is inspected. -/
theorem claim8_counterexample :
    (transformShapes ⟨[.polygon [[0, 0], [1, 0], [0, 1]], .point [0, 0]], some [1]⟩
        2 (.scale [2, 2] ["x", "y"]) [2, 2]).radius = some [1]
    ∧ npAllclose [2, 2] (([2, 2] : List ℚ).headD 0) = true
    ∧ ¬ ((some [(1 : ℚ)] : Option (List ℚ)) = some [2 * 1]) :=
  ⟨rfl, by decide, by decide⟩

/-- Witness for the amended C8 theorem at a concrete circles element. -/
theorem claim8_radius_scaling_witness :
    ((npAllclose [3, 3] (([3, 3] : List ℚ).headD 0) = true →
        (transformShapes ⟨.point [1, 1] :: [], some [2]⟩ 2
            (.scale [3, 3] ["x", "y"]) [3, 3]).radius
            = some (([2] : List ℚ).map (fun r => r * ([3, 3] : List ℚ).headD 0))
          ∧ (transformShapes ⟨.point [1, 1] :: [], some [2]⟩ 2
              (.scale [3, 3] ["x", "y"]) [3, 3]).warned = false))
    ∧ (npAllclose [3, 3] (([3, 3] : List ℚ).headD 0) = false →
        (transformShapes ⟨.point [1, 1] :: [], some [2]⟩ 2
            (.scale [3, 3] ["x", "y"]) [3, 3]).radius
            = some (([2] : List ℚ).map (fun r => r * npMean [3, 3]))
          ∧ (transformShapes ⟨.point [1, 1] :: [], some [2]⟩ 2
              (.scale [3, 3] ["x", "y"]) [3, 3]).warned = true)
    ∧ (transformShapes ⟨.point [1, 1] :: [], some [2]⟩ 2
          (.scale [3, 3] ["x", "y"]) [3, 3]).geometry
        = (Geometry.point [1, 1] :: []).map (transformGeometry
            ((["x", "y", "z"] : List String).take 2).length
            (toAffineMatrix (.scale [3, 3] ["x", "y"])
              ((["x", "y", "z"] : List String).take 2))) :=
  claim8_radius_scaling [1, 1] [] [2] 2 (.scale [3, 3] ["x", "y"]) [3, 3]

theorem getD_take_of_lt (l : List ℚ) (n j : Nat) (h : j < n) :
    (l.take n).getD j 0 = l.getD j 0 := by
  rw [List.getD_eq_getD_get?, List.getD_eq_getD_get?, List.get?_eq_getElem?,
    List.get?_eq_getElem?, List.getElem?_take_of_lt h]

theorem getD_map_getD (cols : List (List ℚ)) (i k : Nat) :
    (cols.map (fun c => c.getD i 0)).getD k 0 = (cols.getD k []).getD i 0 := by
  by_cases hk : k < cols.length
  · rw [List.getD_eq_getElem _ _ (by simpa using hk), List.getElem_map,
      List.getD_eq_getElem _ _ hk]
  · rw [List.getD_eq_default _ _ (by simpa using Nat.le_of_not_lt hk),
      List.getD_eq_default _ _ (Nat.le_of_not_lt hk)]
    rfl

/-- Claim C9: transforming an `N`-row, `D`-spatial-column point table
replaces exactly the `D` coordinate columns with the left-multiplication of
each row's homogeneous coordinates by the transform's matrix over
`input_axes = output_axes` = the spatial axis names, while every
non-coordinate column is carried over unchanged. -/
theorem claim9_point_table (data : PointsElement) (axes : List String)
    (t : BaseTransformation) (N : Nat) (j i : Nat)
    (hD : data.coordColumns.length = axes.length)
    (hN : ∀ col ∈ data.coordColumns, col.length = N)
    (hj : j < axes.length) (hi : i < N) :
    (transformPoints data axes t).otherColumns = data.otherColumns
    ∧ (transformPoints data axes t).coordColumns.length = axes.length
    ∧ (∀ col ∈ (transformPoints data axes t).coordColumns, col.length = N)
    ∧ (((transformPoints data axes t).coordColumns.getD j []).getD i 0
        = (toAffineMatrix t axes).mulVec
            (fun k => if (k : Nat) = axes.length then 1
              else (data.coordColumns.getD (k : Nat) []).getD i 0)
            ⟨j, by omega⟩) := by
  have hhead : (data.coordColumns.headD []).length = N := by
    cases hcols : data.coordColumns with
    | nil =>
      rw [hcols] at hD
      simp only [List.length_nil] at hD
      simp only [List.headD_nil, List.length_nil]
      omega
    | cons c cs =>
      exact hN c (by rw [hcols]; exact List.mem_cons_self c cs)
  refine ⟨rfl, ?_, ?_, ?_⟩
  · show ((List.range axes.length).map _).length = axes.length
    rw [List.length_map, List.length_range]
  · intro col hcol
    unfold transformPoints at hcol
    simp only [List.mem_map] at hcol
    obtain ⟨jj, hjj, rfl⟩ := hcol
    show (List.map _ (transformCoordinates t axes _)).length = N
    rw [List.length_map]
    unfold transformCoordinates transposeRows
    rw [List.length_map, List.length_map, List.length_range, hhead]
  · show (((List.range axes.length).map (fun jj =>
        (transformCoordinates t axes (transposeRows
          (data.coordColumns.headD []).length data.coordColumns)).map
          (fun r => r.getD jj 0))).getD j []).getD i 0 = _
    have hcolj : ((List.range axes.length).map (fun jj =>
        (transformCoordinates t axes (transposeRows
          (data.coordColumns.headD []).length data.coordColumns)).map
          (fun r => r.getD jj 0))).getD j []
        = (transformCoordinates t axes (transposeRows
            (data.coordColumns.headD []).length data.coordColumns)).map
            (fun r => r.getD j 0) := by
      rw [List.getD_eq_getElem _ _ (by rw [List.length_map, List.length_range]; omega),
        List.getElem_map, List.getElem_range]
    rw [hcolj, getD_map_getD]
    have hrowsLen : (transposeRows (data.coordColumns.headD []).length
        data.coordColumns).length = N := by
      unfold transposeRows
      rw [List.length_map, List.length_range, hhead]
    have hib2 : i < (transposeRows (data.coordColumns.headD []).length
        data.coordColumns).length := by
      rw [hrowsLen]; omega
    have hgi : (transposeRows (data.coordColumns.headD []).length
        data.coordColumns)[i]
        = data.coordColumns.map (fun c => c.getD i 0) := by
      unfold transposeRows
      rw [List.getElem_map, List.getElem_range]
    have hrowi : (transformCoordinates t axes (transposeRows
        (data.coordColumns.headD []).length data.coordColumns)).getD i []
        = (List.ofFn ((toAffineMatrix t axes).mulVec (fun k =>
            if (k : Nat) = axes.length then 1
            else (data.coordColumns.map (fun c => c.getD i 0)).getD (k : Nat) 0))).take
            axes.length := by
      simp only [transformCoordinates]
      rw [List.getD_eq_getElem _ _ (by rw [List.length_map, hrowsLen]; omega),
        List.getElem_map, hgi]
    rw [hrowi, getD_take_of_lt _ _ _ hj,
      List.getD_eq_getElem _ _ (by rw [List.length_ofFn]; omega),
      List.getElem_ofFn]
    congr 1
    funext k
    by_cases hkn : (k : Nat) = axes.length
    · rw [if_pos hkn, if_pos hkn]
    · rw [if_neg hkn, if_neg hkn, getD_map_getD]

set_option maxHeartbeats 2000000 in
/-- Witness for C9 at a concrete three-point 2D table. -/
theorem claim9_point_table_witness :
    (transformPoints ⟨[[0, 1, 0], [0, 0, 1]], [("gene", [9, 8, 7])]⟩ ["x", "y"]
        (.scale [2, 2] ["x", "y"])).otherColumns = [("gene", [9, 8, 7])]
    ∧ (transformPoints ⟨[[0, 1, 0], [0, 0, 1]], [("gene", [9, 8, 7])]⟩ ["x", "y"]
        (.scale [2, 2] ["x", "y"])).coordColumns.length = (["x", "y"] : List String).length
    ∧ (∀ col ∈ (transformPoints ⟨[[0, 1, 0], [0, 0, 1]], [("gene", [9, 8, 7])]⟩
        ["x", "y"] (.scale [2, 2] ["x", "y"])).coordColumns, col.length = 3)
    ∧ (((transformPoints ⟨[[0, 1, 0], [0, 0, 1]], [("gene", [9, 8, 7])]⟩ ["x", "y"]
          (.scale [2, 2] ["x", "y"])).coordColumns.getD 0 []).getD 1 0
        = (toAffineMatrix (.scale [2, 2] ["x", "y"]) ["x", "y"]).mulVec
            (fun k => if (k : Nat) = (["x", "y"] : List String).length then 1
              else (([[0, 1, 0], [0, 0, 1]] :
                List (List ℚ)).getD (k : Nat) []).getD 1 0)
            ⟨0, by decide⟩) :=
  claim9_point_table ⟨[[0, 1, 0], [0, 0, 1]], [("gene", [9, 8, 7])]⟩ ["x", "y"]
    (.scale [2, 2] ["x", "y"]) 3 0 1 (by decide) (by decide) (by decide) (by decide)

theorem specCornerVec_last (shape : List Nat) (axes : List String)
    (f : Fin (nSpatialDims axes) → Bool) :
    specCornerVec shape axes f (Fin.last axes.length) = 1 := by
  unfold specCornerVec
  rw [if_pos (Fin.val_last _)]

theorem specCornerVec_nonneg (shape : List Nat) (axes : List String)
    (f : Fin (nSpatialDims axes) → Bool) (j : Fin (axes.length + 1)) :
    0 ≤ specCornerVec shape axes f j := by
  unfold specCornerVec
  by_cases h1 : (j : Nat) = axes.length
  · rw [if_pos h1]
    norm_num
  · rw [if_neg h1]
    by_cases h2 : (if "c" ∈ axes then 1 else 0) ≤ (j : Nat) ∧
        (j : Nat) - (if "c" ∈ axes then 1 else 0) < nSpatialDims axes
    · rw [dif_pos h2]
      by_cases h3 : f ⟨(j : Nat) - (if "c" ∈ axes then 1 else 0), h2.2⟩
      · rw [if_pos h3]
        positivity
      · rw [if_neg h3]
    · rw [dif_neg h2]

theorem specCornerVec_constFalse (shape : List Nat) (axes : List String)
    (j : Fin (axes.length + 1)) (hjn : (j : Nat) ≠ axes.length) :
    specCornerVec shape axes (fun _ => false) j = 0 := by
  unfold specCornerVec
  rw [if_neg hjn]
  simp

theorem specCornerVec_spatial (shape : List Nat) (axes : List String)
    (f : Fin (nSpatialDims axes) → Bool) (i : Nat)
    (hcd : (if "c" ∈ axes then 1 else 0) + nSpatialDims axes = axes.length)
    (hi : i < nSpatialDims axes) :
    specCornerVec shape axes f ⟨(if "c" ∈ axes then 1 else 0) + i, by omega⟩
      = if f ⟨i, hi⟩ then ((spatialShapeOf shape axes).getD i 0 : ℚ) else 0 := by
  unfold specCornerVec
  simp only [Fin.val_mk]
  have hcond : (if "c" ∈ axes then 1 else 0) ≤ (if "c" ∈ axes then 1 else 0) + i ∧
      (if "c" ∈ axes then 1 else 0) + i - (if "c" ∈ axes then 1 else 0)
        < nSpatialDims axes := ⟨by omega, by omega⟩
  rw [if_neg (show ¬((if "c" ∈ axes then 1 else 0) + i = axes.length) from by omega),
    dif_pos hcond]
  have harith : (if "c" ∈ axes then 1 else 0) + i - (if "c" ∈ axes then 1 else 0) = i := by
    omega
  simp only [harith]

theorem specCornerCoord_translation (shape : List Nat) (axes : List String)
    (v : List ℚ) (taxes : List String) (f : Fin (nSpatialDims axes) → Bool)
    (j : Nat) (hjn : j < axes.length) :
    specCornerCoord shape axes (.translation v taxes) f j (by omega)
      = specCornerVec shape axes f ⟨j, by omega⟩
        + axisComp v taxes (axes.getD j "") 0 := by
  unfold specCornerCoord
  rw [translation_mulVec_apply v taxes axes (specCornerVec shape axes f)
      ⟨j, by omega⟩ (show j ≠ axes.length from by omega),
    specCornerVec_last, mul_one]

theorem translation_col_min (shape : List Nat) (axes : List String)
    (v : List ℚ) (taxes : List String) (j : Nat)
    (hlen : shape.length = axes.length)
    (hcd : (if "c" ∈ axes then 1 else 0) + nSpatialDims axes = axes.length)
    (hjn : j < axes.length) :
    listMinQ (colVals (mappedCorners shape axes (.translation v taxes)) j)
      = axisComp v taxes (axes.getD j "") 0 := by
  have hj1 : j < axes.length + 1 := by omega
  have hmem := listMinQ_mem
    (colVals_mappedCorners_ne_nil shape axes (.translation v taxes) j)
  obtain ⟨f, hf⟩ := (colVals_mappedCorners_mem_iff shape axes (.translation v taxes)
    hlen hcd j hj1 _).mp hmem
  have hwmem : axisComp v taxes (axes.getD j "") 0
      ∈ colVals (mappedCorners shape axes (.translation v taxes)) j := by
    refine (colVals_mappedCorners_mem_iff shape axes (.translation v taxes)
      hlen hcd j hj1 _).mpr ⟨fun _ => false, ?_⟩
    rw [specCornerCoord_translation shape axes v taxes _ j hjn,
      specCornerVec_constFalse shape axes ⟨j, by omega⟩
        (show j ≠ axes.length from by omega), zero_add]
  refine le_antisymm (listMinQ_le hwmem) ?_
  rw [hf, specCornerCoord_translation shape axes v taxes f j hjn]
  have := specCornerVec_nonneg shape axes f ⟨j, by omega⟩
  linarith

theorem translation_col_max_spatial (shape : List Nat) (axes : List String)
    (v : List ℚ) (taxes : List String) (i : Nat)
    (hlen : shape.length = axes.length)
    (hcd : (if "c" ∈ axes then 1 else 0) + nSpatialDims axes = axes.length)
    (hi : i < nSpatialDims axes) :
    listMaxQ (colVals (mappedCorners shape axes (.translation v taxes))
        ((if "c" ∈ axes then 1 else 0) + i))
      = ((spatialShapeOf shape axes).getD i 0 : ℚ)
        + axisComp v taxes
            (axes.getD ((if "c" ∈ axes then 1 else 0) + i) "") 0 := by
  have hjn : (if "c" ∈ axes then 1 else 0) + i < axes.length := by omega
  have hj1 : (if "c" ∈ axes then 1 else 0) + i < axes.length + 1 := by omega
  have hsmem : ((spatialShapeOf shape axes).getD i 0 : ℚ)
        + axisComp v taxes (axes.getD ((if "c" ∈ axes then 1 else 0) + i) "") 0
      ∈ colVals (mappedCorners shape axes (.translation v taxes))
          ((if "c" ∈ axes then 1 else 0) + i) := by
    refine (colVals_mappedCorners_mem_iff shape axes (.translation v taxes)
      hlen hcd _ hj1 _).mpr ⟨fun _ => true, ?_⟩
    rw [specCornerCoord_translation shape axes v taxes _ _ hjn,
      specCornerVec_spatial shape axes _ i hcd hi]
    simp
  refine le_antisymm ?_ (le_listMaxQ hsmem)
  have hmem := listMaxQ_mem
    (colVals_mappedCorners_ne_nil shape axes (.translation v taxes)
      ((if "c" ∈ axes then 1 else 0) + i))
  obtain ⟨f, hf⟩ := (colVals_mappedCorners_mem_iff shape axes (.translation v taxes)
    hlen hcd _ hj1 _).mp hmem
  rw [hf, specCornerCoord_translation shape axes v taxes f _ hjn,
    specCornerVec_spatial shape axes f i hcd hi]
  by_cases hfb : f ⟨i, hi⟩
  · rw [if_pos hfb]
  · rw [if_neg hfb]
    have : (0 : ℚ) ≤ ((spatialShapeOf shape axes).getD i 0 : ℚ) := by positivity
    linarith

theorem pyInt_natCast (s : Nat) : pyInt ((s : ℚ)) = (s : ℤ) := by
  unfold pyInt
  rw [if_pos (show (0 : ℚ) ≤ (s : ℚ) from by positivity)]
  exact_mod_cast Int.floor_natCast s

theorem newSpatialShapeOf_translation (shape : List Nat) (axes : List String)
    (v : List ℚ) (taxes : List String)
    (hlen : shape.length = axes.length)
    (hcd : (if "c" ∈ axes then 1 else 0) + nSpatialDims axes = axes.length) :
    newSpatialShapeOf shape axes (.translation v taxes)
      = (spatialShapeOf shape axes).map (fun (s : Nat) => (s : ℤ)) := by
  unfold newSpatialShapeOf
  have hsl := spatialShapeOf_length shape axes hlen hcd
  dsimp only
  apply List.ext_getElem
  · rw [List.length_map, List.length_range, List.length_map, hsl]
  · intro i h1 h2
    rw [List.length_map, List.length_range] at h1
    have hilt : i < (spatialShapeOf shape axes).length := by omega
    rw [List.getElem_map, List.getElem_range, List.getElem_map,
      translation_col_min shape axes v taxes ((if "c" ∈ axes then 1 else 0) + i)
        hlen hcd (by omega),
      translation_col_max_spatial shape axes v taxes i hlen hcd h1,
      add_sub_cancel_right]
    rw [List.getD_eq_getElem _ _ hilt]
    exact pyInt_natCast _

theorem translationVectorOf_translation (shape : List Nat) (axes : List String)
    (v : List ℚ) (taxes : List String)
    (hlen : shape.length = axes.length)
    (hcd : (if "c" ∈ axes then 1 else 0) + nSpatialDims axes = axes.length) :
    translationVectorOf shape axes (.translation v taxes)
      = (List.range axes.length).map
          (fun j => axisComp v taxes (axes.getD j "") 0) := by
  unfold translationVectorOf
  apply List.ext_getElem
  · rw [List.length_map, List.length_map]
  · intro j h1 h2
    rw [List.length_map, List.length_range] at h1
    rw [List.getElem_map, List.getElem_range, List.getElem_map, List.getElem_range,
      translation_col_min shape axes v taxes j hlen hcd h1]

theorem translation_matrix_congr (v w : List ℚ) (ta tb axes : List String)
    (h : ∀ i : Nat, i < axes.length →
      axisComp v ta (axes.getD i "") 0 = axisComp w tb (axes.getD i "") 0) :
    toAffineMatrix (.translation v ta) axes
      = toAffineMatrix (.translation w tb) axes := by
  ext i j
  by_cases hi : (i : Nat) = axes.length
  · rw [translation_apply_last v ta axes i j hi, translation_apply_last w tb axes i j hi]
  · rw [translation_apply_ne v ta axes i j hi, translation_apply_ne w tb axes i j hi,
      h (i : Nat) (by have := i.isLt; omega)]

theorem outputShape_translation (shape : List Nat) (axes : List String)
    (v : List ℚ) (taxes : List String)
    (hlen : shape.length = axes.length)
    (hcd : (if "c" ∈ axes then 1 else 0) + nSpatialDims axes = axes.length) :
    (if "c" ∈ axes then [(shape.headD 0 : ℤ)] else [])
        ++ newSpatialShapeOf shape axes (.translation v taxes)
      = shape.map (fun (s : Nat) => (s : ℤ)) := by
  rw [newSpatialShapeOf_translation shape axes v taxes hlen hcd]
  unfold spatialShapeOf
  by_cases hc : "c" ∈ axes
  · rw [if_pos hc]
    rw [if_pos hc] at hcd
    cases shape with
    | nil =>
      rw [List.length_nil] at hlen
      exfalso
      omega
    | cons a rest =>
      have hd : (a :: rest).length - nSpatialDims axes = 1 := by
        rw [List.length_cons] at hlen ⊢
        omega
      rw [hd]
      show ((a : ℤ) :: []) ++ (rest.map (fun (s : Nat) => (s : ℤ))) = _
      rw [List.singleton_append, List.map_cons]
  · rw [if_neg hc]
    rw [if_neg hc] at hcd
    have hd : shape.length - nSpatialDims axes = 0 := by omega
    rw [hd, List.drop_zero, List.nil_append]

theorem offsets_translation (shape : List Nat) (axes : List String)
    (v : List ℚ) (taxes : List String)
    (hlen : shape.length = axes.length)
    (hcd : (if "c" ∈ axes then 1 else 0) + nSpatialDims axes = axes.length)
    (hpos : ∀ s ∈ spatialShapeOf shape axes, 0 < s) :
    ((List.range (nSpatialDims axes)).map (fun i =>
        ((newSpatialShapeOf shape axes (.translation v taxes)).getD i 0 : ℚ) /
          (((spatialShapeOf shape axes).getD i 0 : Nat) : ℚ))).map
      (fun p => -p / 2 + 1 / 2)
      = List.replicate (nSpatialDims axes) (0 : ℚ) := by
  rw [List.eq_replicate_iff]
  constructor
  · rw [List.length_map, List.length_map, List.length_range]
  · intro b hb
    simp only [List.mem_map, List.mem_range] at hb
    obtain ⟨p, ⟨i, hi, hp⟩, hbp⟩ := hb
    have hsl := spatialShapeOf_length shape axes hlen hcd
    have hilt : i < (spatialShapeOf shape axes).length := by omega
    have hspos : 0 < (spatialShapeOf shape axes).getD i 0 := by
      apply hpos
      rw [List.getD_eq_getElem _ _ hilt]
      exact List.getElem_mem _
    have hgetNS : ((newSpatialShapeOf shape axes (.translation v taxes)).getD i 0 : ℚ)
        = (((spatialShapeOf shape axes).getD i 0 : Nat) : ℚ) := by
      rw [newSpatialShapeOf_translation shape axes v taxes hlen hcd,
        List.getD_eq_getElem _ _ (show i < ((spatialShapeOf shape axes).map
          (fun (s : Nat) => (s : ℤ))).length from by rw [List.length_map]; omega),
        List.getElem_map, List.getD_eq_getElem _ _ hilt, Int.cast_natCast]
    have hne : (((spatialShapeOf shape axes).getD i 0 : Nat) : ℚ) ≠ 0 := by
      exact_mod_cast hspos.ne'
    rw [← hbp, ← hp, hgetNS, div_self hne]
    norm_num

/-- Claim C5, amended: for every raster input (axes of positive spatial
extent, no duplicate axis names) and every pure translation applied to it,
the transformed raster keeps exactly the input shape, and the returned
`raster_translation` is the two-member Sequence of a zero pixel-offset
translation (it vanishes because the shape is preserved) followed by the
per-axis-minimum translation; the affine matrix of that Sequence equals the
matrix of the applied translation itself, though the returned value is not
the translation object. -/
theorem claim5_translation_raster (shape : List Nat) (axes : List String)
    (v : List ℚ) (taxes : List String)
    (hlen : shape.length = axes.length)
    (hcd : (if "c" ∈ axes then 1 else 0) + nSpatialDims axes = axes.length)
    (hnodup : axes.Nodup)
    (hpos : ∀ s ∈ spatialShapeOf shape axes, 0 < s) :
    (transformRaster shape axes (.translation v taxes)).map RasterResult.outputShape
      = some (shape.map (fun (s : Nat) => (s : ℤ)))
    ∧ (transformRaster shape axes (.translation v taxes)).map
          RasterResult.rasterTranslation
      = some (.sequence
          [.translation (List.replicate (nSpatialDims axes) 0)
            (axes.drop (axes.length - nSpatialDims axes)),
          .translation (translationVectorOf shape axes (.translation v taxes)) axes])
    ∧ (transformRaster shape axes (.translation v taxes)).map
          (fun r => toAffineMatrix r.rasterTranslation axes)
      = some (toAffineMatrix (.translation v taxes) axes) := by
  have hinv : inverse (.translation v taxes)
      = some (.translation (v.map Neg.neg) taxes) := rfl
  rw [transformRaster_eq_some shape axes _ _ hinv]
  simp only [Option.map_some']
  refine ⟨?_, ?_, ?_⟩
  · exact congrArg some (outputShape_translation shape axes v taxes hlen hcd)
  · refine congrArg some ?_
    rw [offsets_translation shape axes v taxes hlen hcd hpos]
  · refine congrArg some ?_
    rw [offsets_translation shape axes v taxes hlen hcd hpos,
      toAffineMatrix_sequence_two,
      translation_zero_eq_one (List.replicate (nSpatialDims axes) 0)
        (axes.drop (axes.length - nSpatialDims axes)) axes
        (fun x hx => List.eq_of_mem_replicate hx),
      mul_one]
    apply translation_matrix_congr
    intro i hi
    have hgd : axes.getD i "" = axes[i] := List.getD_eq_getElem _ _ hi
    have ha : axes.indexOf (axes.getD i "") = i := by
      rw [hgd]
      exact List.indexOf_getElem hnodup i hi
    show (translationVectorOf shape axes (.translation v taxes)).getD
        (axes.indexOf (axes.getD i "")) 0 = axisComp v taxes (axes.getD i "") 0
    rw [ha, translationVectorOf_translation shape axes v taxes hlen hcd,
      List.getD_eq_getElem _ _ (show i < ((List.range axes.length).map
        (fun j => axisComp v taxes (axes.getD j "") 0)).length from by
          rw [List.length_map, List.length_range]; exact hi),
      List.getElem_map, List.getElem_range]

/-- Claim C5 counterexample: for the `2x2` raster with axes `["y","x"]` and
the pure translation by `[1,1]`, the returned `raster_translation` is the
two-member Sequence (pixel-offset translation, minimum translation) — not
the translation object itself, neither structurally nor under the modelled
Python `==`. -/
theorem claim5_counterexample :
    (transformRaster [2, 2] ["y", "x"]
        (.translation [1, 1] ["y", "x"])).map RasterResult.rasterTranslation
      = some (.sequence [.translation [0, 0] ["y", "x"],
          .translation [1, 1] ["y", "x"]])
    ∧ btBEq (.sequence [.translation [0, 0] ["y", "x"],
          .translation [1, 1] ["y", "x"]])
        (.translation [1, 1] ["y", "x"]) = false
    ∧ (BaseTransformation.sequence [.translation [0, 0] ["y", "x"],
          .translation [1, 1] ["y", "x"]]
        ≠ .translation [1, 1] ["y", "x"]) := by
  refine ⟨rfl, rfl, fun h => ?_⟩
  exact BaseTransformation.noConfusion h

/-- Witness for the amended C5 theorem: a `2x2` raster translated by `[1,1]`. -/
theorem claim5_translation_raster_witness :
    ((["y", "x"] : List String).Nodup
      ∧ ∀ s ∈ spatialShapeOf [2, 2] ["y", "x"], 0 < s)
    ∧ ((transformRaster [2, 2] ["y", "x"]
          (.translation [1, 1] ["y", "x"])).map RasterResult.outputShape
        = some (([2, 2] : List Nat).map (fun (s : Nat) => (s : ℤ)))
      ∧ (transformRaster [2, 2] ["y", "x"]
            (.translation [1, 1] ["y", "x"])).map RasterResult.rasterTranslation
        = some (.sequence
            [.translation (List.replicate (nSpatialDims ["y", "x"]) 0)
              ((["y", "x"] : List String).drop
                ((["y", "x"] : List String).length - nSpatialDims ["y", "x"])),
            .translation (translationVectorOf [2, 2] ["y", "x"]
              (.translation [1, 1] ["y", "x"])) ["y", "x"]])
      ∧ (transformRaster [2, 2] ["y", "x"]
            (.translation [1, 1] ["y", "x"])).map
              (fun r => toAffineMatrix r.rasterTranslation ["y", "x"])
        = some (toAffineMatrix (.translation [1, 1] ["y", "x"]) ["y", "x"])) :=
  ⟨⟨by decide, by decide⟩,
    claim5_translation_raster [2, 2] ["y", "x"] [1, 1] ["y", "x"]
      (by decide) (by decide) (by decide) (by decide)⟩

namespace Polygons

theorem digitChar_isDigit (d : Nat) (h : d < 10) : (digitChar d).isDigit = true := by
  interval_cases d <;> decide

theorem digitChar_toNat (d : Nat) (h : d < 10) : (digitChar d).toNat - 48 = d := by
  interval_cases d <;> decide

theorem head_not_digit (c0 : Char) (h : c0.isDigit = false) (tail : List Char) :
    ∀ c, ((c0 :: tail).head? = some c) → c.isDigit = false := by
  intro c hc
  rw [List.head?_cons] at hc
  injection hc with hc
  rw [← hc]
  exact h

theorem takeWhile_digits_append (ds : List Nat) (rest : List Char) :
    (∀ d ∈ ds, d < 10) → (∀ c, rest.head? = some c → c.isDigit = false) →
    (ds.map digitChar ++ rest).takeWhile Char.isDigit = ds.map digitChar := by
  induction ds with
  | nil =>
    intro _ hr
    rw [List.map_nil, List.nil_append]
    cases rest with
    | nil => rfl
    | cons c r =>
      rw [List.takeWhile_cons, hr c rfl]
      simp
  | cons d ds ih =>
    intro h10 hr
    have hdig := digitChar_isDigit d (h10 d (List.mem_cons_self _ _))
    rw [List.map_cons, List.cons_append, List.takeWhile_cons, hdig,
      if_pos (show true = true from rfl),
      ih (fun x hx => h10 x (List.mem_cons_of_mem _ hx)) hr]

theorem dropWhile_digits_append (ds : List Nat) (rest : List Char) :
    (∀ d ∈ ds, d < 10) → (∀ c, rest.head? = some c → c.isDigit = false) →
    (ds.map digitChar ++ rest).dropWhile Char.isDigit = rest := by
  induction ds with
  | nil =>
    intro _ hr
    rw [List.map_nil, List.nil_append]
    cases rest with
    | nil => rfl
    | cons c r =>
      rw [List.dropWhile_cons, hr c rfl]
      simp
  | cons d ds ih =>
    intro h10 hr
    have hdig := digitChar_isDigit d (h10 d (List.mem_cons_self _ _))
    rw [List.map_cons, List.cons_append, List.dropWhile_cons, hdig,
      if_pos (show true = true from rfl)]
    exact ih (fun x hx => h10 x (List.mem_cons_of_mem _ hx)) hr

theorem parseDigitList_render (ds : List Nat) (rest : List Char)
    (hne : ds ≠ []) (h10 : ∀ d ∈ ds, d < 10)
    (hr : ∀ c, rest.head? = some c → c.isDigit = false) :
    parseDigitList (ds.map digitChar ++ rest) = some (ds.map digitChar, rest) := by
  unfold parseDigitList
  dsimp only
  rw [takeWhile_digits_append ds rest h10 hr, dropWhile_digits_append ds rest h10 hr]
  have hnee : ¬((ds.map digitChar).isEmpty = true) := by
    cases ds with
    | nil => exact absurd rfl hne
    | cons a l => simp
  rw [if_neg hnee]

theorem foldl_digit_chars (ds : List Nat) :
    ∀ a : Nat, (∀ d ∈ ds, d < 10) →
      (ds.map digitChar).foldl (fun a c => 10 * a + (c.toNat - 48)) a
        = ds.foldl (fun a d => 10 * a + d) a := by
  induction ds with
  | nil =>
    intro a _
    rfl
  | cons d ds ih =>
    intro a h10
    simp only [List.map_cons, List.foldl_cons]
    rw [digitChar_toNat d (h10 d (List.mem_cons_self _ _))]
    exact ih _ (fun x hx => h10 x (List.mem_cons_of_mem _ hx))

theorem digitsOfChars_map (ds : List Nat) (h10 : ∀ d ∈ ds, d < 10) :
    digitsOfChars (ds.map digitChar) = digitsVal ds := by
  unfold digitsOfChars digitsVal
  exact foldl_digit_chars ds 0 h10

theorem parseNum_renderEntry (e : DecEntry) (rest : List Char)
    (h1 : e.1 ≠ []) (h1d : ∀ d ∈ e.1, d < 10)
    (h2 : e.2 ≠ []) (h2d : ∀ d ∈ e.2, d < 10)
    (hr : ∀ c, rest.head? = some c → c.isDigit = false) :
    parseNum (renderEntry e ++ rest) = some (decEntryVal e, rest) := by
  have hshape : renderEntry e ++ rest
      = e.1.map digitChar ++ ('.' :: (e.2.map digitChar ++ rest)) := by
    unfold renderEntry
    simp only [List.append_assoc, List.cons_append]
  have hpd1 : parseDigitList (e.1.map digitChar ++ ('.' :: (e.2.map digitChar ++ rest)))
      = some (e.1.map digitChar, '.' :: (e.2.map digitChar ++ rest)) :=
    parseDigitList_render e.1 _ h1 h1d (head_not_digit '.' (by decide) _)
  have hpd2 : parseDigitList (e.2.map digitChar ++ rest)
      = some (e.2.map digitChar, rest) :=
    parseDigitList_render e.2 rest h2 h2d hr
  rw [hshape]
  unfold parseNum
  rw [hpd1]
  dsimp only
  rw [if_pos (show ('.' : Char) = '.' from rfl), hpd2]
  dsimp only
  rw [digitsOfChars_map e.1 h1d, digitsOfChars_map e.2 h2d, List.length_map]
  rfl

theorem parseGroup_renderRow (r : DecEntry × DecEntry) (rest : List Char)
    (h11 : r.1.1 ≠ []) (h11d : ∀ d ∈ r.1.1, d < 10)
    (h12 : r.1.2 ≠ []) (h12d : ∀ d ∈ r.1.2, d < 10)
    (h21 : r.2.1 ≠ []) (h21d : ∀ d ∈ r.2.1, d < 10)
    (h22 : r.2.2 ≠ []) (h22d : ∀ d ∈ r.2.2, d < 10)
    (hr : ∀ c, rest.head? = some c → c.isDigit = false) :
    parseGroup (renderRow r ++ rest)
      = some ([decEntryVal r.1, decEntryVal r.2], rest) := by
  have hshape : renderRow r ++ rest
      = '[' :: (renderEntry r.1 ++ (',' :: (renderEntry r.2 ++ (']' :: rest)))) := by
    unfold renderRow
    simp only [List.cons_append, List.append_assoc, List.singleton_append,
      List.nil_append]
  have hn1 : parseNum (renderEntry r.1 ++ (',' :: (renderEntry r.2 ++ (']' :: rest))))
      = some (decEntryVal r.1, ',' :: (renderEntry r.2 ++ (']' :: rest))) :=
    parseNum_renderEntry r.1 _ h11 h11d h12 h12d (head_not_digit ',' (by decide) _)
  have hn2 : parseNum (renderEntry r.2 ++ (']' :: rest))
      = some (decEntryVal r.2, ']' :: rest) :=
    parseNum_renderEntry r.2 _ h21 h21d h22 h22d (head_not_digit ']' (by decide) _)
  rw [hshape]
  unfold parseGroup
  dsimp only
  rw [if_pos (show ('[' : Char) = '[' from rfl), hn1]
  dsimp only
  rw [if_pos (show (',' : Char) = ',' from rfl), hn2]
  dsimp only
  rw [if_pos (show (']' : Char) = ']' from rfl)]

theorem parseGroups_none (cs : List Char) (h : parseGroup cs = none) :
    parseGroups cs = none := by
  rw [parseGroups]
  split
  · rfl
  · rename_i g r heq
    rw [h] at heq
    exact Option.noConfusion heq

theorem parseGroups_last (cs : List Char) (g : List ℚ)
    (hpg : parseGroup cs = some (g, [']'])) :
    parseGroups cs = some ([g], [']']) := by
  rw [parseGroups]
  split
  · rename_i heq
    rw [hpg] at heq
    exact Option.noConfusion heq
  · rename_i g' r' heq
    rw [hpg] at heq
    injection heq with heq2
    injection heq2 with hg hr
    subst hg
    subst hr
    dsimp only
    rw [if_neg (show ¬((']' : Char) = ',') from by decide),
      if_neg (show ¬((']' : Char) = '[') from by decide)]

theorem parseGroups_more (cs : List Char) (g : List ℚ) (r2 : List Char)
    (hpg : parseGroup cs = some (g, ',' :: r2)) (hh : r2.head? = some '[')
    (gs : List (List ℚ)) (r3 : List Char)
    (hrec : parseGroups r2 = some (gs, r3)) :
    parseGroups cs = some (g :: gs, r3) := by
  rw [parseGroups]
  split
  · rename_i heq
    rw [hpg] at heq
    exact Option.noConfusion heq
  · rename_i g' r' heq
    rw [hpg] at heq
    injection heq with heq2
    injection heq2 with hg hr
    subst hg
    subst hr
    dsimp only
    rw [if_pos (show (',' : Char) = ',' from rfl), if_pos hh, hrec]

theorem parseGroups_renderRows (rows : List (DecEntry × DecEntry)) :
    rows ≠ [] →
    (∀ p ∈ rows,
      (p.1.1 ≠ [] ∧ ∀ d ∈ p.1.1, d < 10) ∧ (p.1.2 ≠ [] ∧ ∀ d ∈ p.1.2, d < 10)
      ∧ (p.2.1 ≠ [] ∧ ∀ d ∈ p.2.1, d < 10)
      ∧ (p.2.2 ≠ [] ∧ ∀ d ∈ p.2.2, d < 10)) →
    parseGroups (renderRows rows ++ [']'])
      = some (rows.map (fun p => [decEntryVal p.1, decEntryVal p.2]), [']']) := by
  induction rows with
  | nil =>
    intro h _
    exact absurd rfl h
  | cons r rs ih =>
    intro _ hgood
    obtain ⟨⟨h11, h11d⟩, ⟨h12, h12d⟩, ⟨h21, h21d⟩, ⟨h22, h22d⟩⟩ :=
      hgood r (List.mem_cons_self _ _)
    cases rs with
    | nil =>
      have hpg : parseGroup (renderRow r ++ [']'])
          = some ([decEntryVal r.1, decEntryVal r.2], [']']) :=
        parseGroup_renderRow r [']'] h11 h11d h12 h12d h21 h21d h22 h22d
          (head_not_digit ']' (by decide) _)
      show parseGroups (renderRow r ++ [']']) = _
      rw [parseGroups_last _ _ hpg]
      rfl
    | cons r' rs' =>
      have hh : (renderRows (r' :: rs') ++ [']']).head? = some '[' := by
        cases rs' <;> rfl
      have hpg : parseGroup (renderRow r ++ (',' :: (renderRows (r' :: rs') ++ [']'])))
          = some ([decEntryVal r.1, decEntryVal r.2],
              ',' :: (renderRows (r' :: rs') ++ [']'])) :=
        parseGroup_renderRow r _ h11 h11d h12 h12d h21 h21d h22 h22d
          (head_not_digit ',' (by decide) _)
      have hrec := ih (List.cons_ne_nil _ _)
        (fun p hp => hgood p (List.mem_cons_of_mem _ hp))
      have hmain := parseGroups_more _ _ _ hpg hh _ _ hrec
      show parseGroups ((renderRow r ++ ',' :: renderRows (r' :: rs')) ++ [']']) = _
      rw [show (renderRow r ++ ',' :: renderRows (r' :: rs')) ++ [']']
          = renderRow r ++ (',' :: (renderRows (r' :: rs') ++ [']'])) from by
        simp only [List.append_assoc, List.cons_append]]
      rw [hmain]
      rfl

theorem string_to_tensor_some (s : String) (cs : List Char) (gs : List (List ℚ))
    (h : s.data = '[' :: cs) (hpg : parseGroups cs = some (gs, [']'])) :
    string_to_tensor s = some gs := by
  unfold string_to_tensor
  rw [h]
  split
  · rename_i cs2 heq
    injection heq with h1 h2
    subst h2
    split
    · rename_i gs2 heq2
      rw [hpg] at heq2
      injection heq2 with heq3
      injection heq3 with hg hr
      rw [← hg]
    · rename_i hcatch
      exact absurd hpg (hcatch gs)
  · rename_i hne
    exact absurd rfl (hne cs)

theorem string_to_tensor_none (s : String) (cs : List Char)
    (h : s.data = '[' :: cs) (hpg : parseGroup cs = none) :
    string_to_tensor s = none := by
  unfold string_to_tensor
  rw [h]
  split
  · rename_i cs2 heq
    injection heq with h1 h2
    subst h2
    rw [parseGroups_none cs hpg]
  · rename_i hne
    exact absurd rfl (hne cs)

/-- Claim C10, amended: `string_to_tensor` inverts `tensor_to_string` exactly
on the arrays every one of whose printed entries has a nonempty integer part
and a NONEMPTY fractional digit part; since numpy prints integer-valued
floats with an empty fractional part (`1.` for `1.0`), which the pattern
`[0-9]+\.[0-9]+` rejects, the round trip returns `None` — not a
reconstruction — for integer-valued entries, and likewise `None` for any
string with a negative entry or scientific notation. -/
theorem claim10_roundtrip (rows : List (DecEntry × DecEntry))
    (hne : rows ≠ [])
    (hgood : ∀ p ∈ rows,
      (p.1.1 ≠ [] ∧ ∀ d ∈ p.1.1, d < 10) ∧ (p.1.2 ≠ [] ∧ ∀ d ∈ p.1.2, d < 10)
      ∧ (p.2.1 ≠ [] ∧ ∀ d ∈ p.2.1, d < 10)
      ∧ (p.2.2 ≠ [] ∧ ∀ d ∈ p.2.2, d < 10)) :
    string_to_tensor (tensor_to_string rows)
      = some (rows.map (fun p => [decEntryVal p.1, decEntryVal p.2])) := by
  have hdata : (tensor_to_string rows).data = '[' :: (renderRows rows ++ [']']) := rfl
  have hpgs := parseGroups_renderRows rows hne hgood
  apply string_to_tensor_some
  · exact hdata
  · exact hpgs

/-- Claim C10 counterexample: the integer-valued array entry `1.0` prints as
`1.` (empty fractional digits), and `string_to_tensor` rejects the resulting
serialization `"[[1.,2.]]"` of non-negative plainly-printed floats, so the
round trip is `None`, not a numerically-close reconstruction; strings with a
negative entry or scientific notation are also rejected, as the claim says. -/
theorem claim10_counterexample :
    tensor_to_string [(([1], []), ([2], []))] = "[[1.,2.]]"
    ∧ decEntryVal ([1], []) = 1
    ∧ decEntryVal ([2], []) = 2
    ∧ string_to_tensor "[[1.,2.]]" = none
    ∧ string_to_tensor "[[-1.0,2.0]]" = none
    ∧ string_to_tensor "[[1e-05,2.0]]" = none := by
  refine ⟨by decide, by decide, by decide, ?_, ?_, ?_⟩
  · exact string_to_tensor_none _
      ('[' :: '1' :: '.' :: ',' :: '2' :: '.' :: ']' :: ']' :: [])
      (by decide) (by decide)
  · exact string_to_tensor_none _
      ('[' :: '-' :: '1' :: '.' :: '0' :: ',' :: '2' :: '.' :: '0' :: ']' :: ']' :: [])
      (by decide) (by decide)
  · exact string_to_tensor_none _
      ('[' :: '1' :: 'e' :: '-' :: '0' :: '5' :: ',' :: '2' :: '.' :: '0' :: ']' :: ']' :: [])
      (by decide) (by decide)

/-- Witness for the amended C10 theorem: the one-row array `[[1.5, 2.75]]`
prints to `"[[1.5,2.75]]"` and parses back to its exact values. -/
theorem claim10_roundtrip_witness :
    (([(([1], [5]), ([2], [7, 5]))] : List (DecEntry × DecEntry)) ≠ [])
    ∧ tensor_to_string [(([1], [5]), ([2], [7, 5]))] = "[[1.5,2.75]]"
    ∧ string_to_tensor (tensor_to_string [(([1], [5]), ([2], [7, 5]))])
      = some ([(([1], [5]), ([2], [7, 5]))].map
          (fun p => [decEntryVal p.1, decEntryVal p.2])) :=
  ⟨by decide, by decide,
    claim10_roundtrip [(([1], [5]), ([2], [7, 5]))] (by decide) (by decide)⟩

end Polygons

end SpatialData
